import Mathlib

/-!
Verification of the duplex relay / protocol-normalization layer of the
voice-agent demo: a shallow embedding of `src/app/api/agent/route.ts`
(upgrade guard, outbound BYO-LLM rewriter) and of the client-side
message classifier / conversation aggregator (`src/unnamed/part_002`).

JSON values reachable in payloads are modelled by the inductive `Json`.
JavaScript numbers are modelled as integers (every claim under study
only discriminates on sign / zero / small byte values); raw binary
values (`ArrayBuffer` / `Uint8Array`) that can appear inside a payload
are modelled by the `bytes` constructor carrying the byte list.
`JSON.parse` is modelled as an explicit parameter `parse : String →
Option Json` (`none` = the parser threw); object fields are association
lists in insertion order, mirroring JS own-property order.
-/

namespace AgentRelay

/-- A JSON-decoded JavaScript value, as seen by the classifier.  `bytes`
models a raw `ArrayBuffer`/`Uint8Array` value; `num` models a JS number
restricted to integers. -/
inductive Json where
  | null
  | bool (b : Bool)
  | num (n : Int)
  | str (s : String)
  | arr (items : List Json)
  | obj (fields : List (String × Json))
  | bytes (data : List Nat)
deriving Repr

namespace Json

/-- Property access `o[k]`: `none` models JS `undefined` (missing key or
non-object receiver; string/array index access other than the modelled
array index returns `undefined` for the named keys used by the source). -/
def getField : Json → String → Option Json
  | obj fields, k => (fields.find? (fun kv => kv.1 = k)).map (fun kv => kv.2)
  | _, _ => none

/-- Array index access `a[i]`; `none` models `undefined`. -/
def getIndex : Json → Nat → Option Json
  | arr items, i => items.get? i
  | _, _ => none

/-- JS truthiness of a value. -/
def truthy : Json → Bool
  | null => false
  | bool b => b
  | num n => n != 0
  | str s => s != ""
  | arr _ => true
  | obj _ => true
  | bytes _ => true

/-- Truthiness of a possibly-`undefined` value (`undefined` is falsy). -/
def truthyOpt : Option Json → Bool
  | some v => truthy v
  | none => false

/-- The JS `??` chain over possibly-missing values: first operand that is
neither `undefined` nor `null`. -/
def coalesce : List (Option Json) → Option Json
  | [] => none
  | some null :: rest => coalesce rest
  | some v :: _ => some v
  | none :: rest => coalesce rest

/-- The JS `||` chain over possibly-missing values: first truthy operand. -/
def orChain : List (Option Json) → Option Json
  | [] => none
  | some v :: rest => if truthy v then some v else orChain rest
  | none :: rest => orChain rest

mutual

/-- String conversion `String(v)` / template-literal coercion, for the
value shapes the source can feed it. -/
def jsToString : Json → String
  | null => "null"
  | bool b => if b then "true" else "false"
  | num n => toString n
  | str s => s
  | arr items => String.intercalate "," (jsToStringList items)
  | obj _ => "[object Object]"
  | bytes _ => "[object ArrayBuffer]"

/-- Pointwise string conversion of array elements. -/
def jsToStringList : List Json → List String
  | [] => []
  | v :: rest => jsToString v :: jsToStringList rest

end

/-- The JS comparison `v > 0`.  Non-numeric operands whose `ToNumber`
image is `NaN` compare false; numeric strings are outside the model. -/
def gtZero : Json → Bool
  | num n => 0 < n
  | bool b => b
  | _ => false

/-- Assignment `o[k] = v` on an object's field list: updates the value in
place when the key exists (JS preserves property order), appends the new
key otherwise. -/
def setKey (fields : List (String × Json)) (k : String) (v : Json) :
    List (String × Json) :=
  if fields.any (fun kv => kv.1 = k) then
    fields.map (fun kv => if kv.1 = k then (k, v) else kv)
  else
    fields ++ [(k, v)]

end Json

open Json

/-- JS `toLowerCase()` over the ASCII range the discriminators use. -/
def jsToLower (s : String) : String := ⟨s.data.map Char.toLower⟩

/-! ### Upgrade endpoint guard (`GET`, route.ts lines 26-42) -/

/-- Truthiness of an optional configuration string (env vars are
`string | undefined`; the empty string is falsy). -/
def optTruthy : Option String → Bool
  | some s => s != ""
  | none => false

/-- Outcome of the upgrade handler before any socket work: either a
synchronous JSON error response, or the decision to proceed (which is
where the socket pair and the upstream connection are first created). -/
inductive RouteOutcome where
  | reject (status : Nat) (errorMessage : String)
  | proceed (upstreamUrl : String)
deriving DecidableEq, Repr

/-- Upstream endpoint constant `DEEPGRAM_AGENT_URL`. -/
def deepgramAgentUrl : String := "wss://agent.deepgram.com/v1/listen"

/-- The guard clauses of `GET` in source order: missing credential check
(HTTP 500), then the `upgrade` header check (HTTP 400); only past both
does the handler construct the socket pair and dial upstream. -/
def routeGuard (deepGramApiKey : Option String)
    (upgradeHeader : Option String) : RouteOutcome :=
  if !optTruthy deepGramApiKey then
    .reject 500 "Deepgram API key is not configured."
  else if (upgradeHeader.map jsToLower) ≠ some "websocket" then
    .reject 400 "Expected a WebSocket upgrade request."
  else
    .proceed deepgramAgentUrl

/-! ### JSON serialization (`JSON.stringify`) -/

/-- Minimal string-literal escaping used by the serializer (quote and
backslash; control characters do not occur in the modelled payloads). -/
def escapeChar (c : Char) : String :=
  if c = '"' then "\\\"" else if c = '\\' then "\\\\" else String.singleton c

/-- Serialization of a JSON string literal. -/
def quoteStr (s : String) : String :=
  "\"" ++ String.join (s.data.map escapeChar) ++ "\""

mutual

/-- The serializer `JSON.stringify` over the modelled values (a raw
binary value serializes as an empty object, as an `ArrayBuffer` does). -/
def jsonStringify : Json → String
  | .null => "null"
  | .bool b => if b then "true" else "false"
  | .num n => toString n
  | .str s => quoteStr s
  | .arr items => "[" ++ String.intercalate "," (jsonStringifyList items) ++ "]"
  | .obj fields => "\x7b" ++ String.intercalate "," (jsonStringifyFields fields) ++ "\x7d"
  | .bytes _ => "\x7b\x7d"

/-- Serialization of array elements. -/
def jsonStringifyList : List Json → List String
  | [] => []
  | v :: rest => jsonStringify v :: jsonStringifyList rest

/-- Serialization of object members. -/
def jsonStringifyFields : List (String × Json) → List String
  | [] => []
  | kv :: rest => (quoteStr kv.1 ++ ":" ++ jsonStringify kv.2) :: jsonStringifyFields rest

end

/-! ### Outbound Rewriter (`injectExternalThinkSettings`, route.ts 44-97, 192-223) -/

/-- Configuration values read from the environment (route.ts and
`src/unnamed/part_000`): each is `string | undefined`. -/
structure AppConfig where
  deepGramApiKey : Option String
  llmProvider : Option String
  llmApiKey : Option String
  llmModel : Option String

/-- The table `BYO_DEFAULT_MODELS` (route.ts lines 7-10); lookup of an
unknown provider is `undefined`. -/
def byoDefaultModels (p : String) : Option String :=
  if p = "openai" then some "gpt-4o-mini"
  else if p = "claude" then some "claude-3-haiku-20240307"
  else none

/-- Line 44: `config.llmProvider?.toLowerCase()`. -/
def derivedLlmProvider (c : AppConfig) : Option String :=
  c.llmProvider.map jsToLower

/-- Lines 46-48: `config.llmModel || (llmProvider ? BYO_DEFAULT_MODELS[llmProvider] : undefined)`. -/
def derivedLlmModel (c : AppConfig) : Option String :=
  if optTruthy c.llmModel then c.llmModel
  else if optTruthy (derivedLlmProvider c) then
    byoDefaultModels ((derivedLlmProvider c).getD "")
  else none

/-- Line 49: `Boolean(llmProvider && llmApiKey)`. -/
def shouldInjectExternalLlm (c : AppConfig) : Bool :=
  optTruthy (derivedLlmProvider c) && optTruthy c.llmApiKey

/-- Line 69: `(parsed?.type ?? "").toLowerCase()`.  A non-string,
non-nullish `type` makes `toLowerCase` throw (caught by the handler):
modelled as `none`. -/
def typeDiscriminator (parsed : Json) : Option String :=
  match parsed.getField "type" with
  | none => some ""
  | some .null => some ""
  | some (.str s) => some (jsToLower s)
  | some _ => none

/-- Lines 75-84: the injected `think` block. -/
def thinkConfig (provider : String) (modelOpt : Option String)
    (apiKey : String) : Json :=
  .obj
    [("provider", .obj
       ([("type", .str provider)] ++
        match modelOpt with
        | some m => if m ≠ "" then [("model", .str m)] else []
        | none => [])),
     ("auth", .obj [("type", .str "api_key"), ("value", .str apiKey)])]

/-- Line 73: `parsed.agent ?? {}`, as a field list.  A non-object,
non-nullish `agent` value spreads to no string-keyed own properties
relevant to the claims and is modelled as empty. -/
def agentFieldsOf (parsed : Json) : List (String × Json) :=
  match parsed.getField "agent" with
  | some (.obj fs) => fs
  | _ => []

/-- Lines 62-97, `injectExternalThinkSettings`, up to the final
`JSON.stringify`: returns the rewritten object, or `none` for the
`return null` paths (config absent, parse throw, `type` mismatch, or a
throwing property access — every caught exception returns `null`).
`JSON.parse` is the explicit parameter `parse`.  The `instructions:
existingInstructions` slot is re-assigned in place when the key exists;
when it does not, the resulting `undefined`-valued property is dropped
again by `JSON.stringify`, so it is not materialized here. -/
def injectExternalThinkSettings (c : AppConfig)
    (parse : String → Option Json) (message : String) : Option Json :=
  if !shouldInjectExternalLlm c then none
  else
    match parse message with
    | none => none
    | some parsed =>
      match typeDiscriminator parsed with
      | none => none
      | some ty =>
        if ty ≠ "agent-request" then none
        else
          match parsed with
          | .obj fields =>
            let agentFields := agentFieldsOf parsed
            let think := thinkConfig ((derivedLlmProvider c).getD "")
              (derivedLlmModel c) ((c.llmApiKey).getD "")
            let withInstructions :=
              match agentFields.find? (fun kv => kv.1 = "instructions") with
              | some kv => setKey agentFields "instructions" kv.2
              | none => agentFields
            some (.obj (setKey fields "agent"
              (.obj (setKey withInstructions "think" think))))
          | _ => none

/-- The client→upstream string-message path of the `upstream` message
listener (route.ts lines 207-218), given that the upstream socket is
open: a truthy rewritten string is forwarded, otherwise the original
message is forwarded unchanged.  Total — a parse failure surfaces as the
pass-through branch, never as an error. -/
def forwardClientString (c : AppConfig) (parse : String → Option Json)
    (message : String) : String :=
  if shouldInjectExternalLlm c then
    match injectExternalThinkSettings c parse message with
    | some rewritten =>
      let m := jsonStringify rewritten
      if m ≠ "" then m else message
    | none => message
  else message

/-! ### Message Classifier helpers (`src/unnamed/part_002`) -/

/-- The `Speaker` union of the source, minus `null` (represented by
`Option SpeakerTag`). -/
inductive SpeakerTag where
  | user
  | userWaiting
  | model
deriving DecidableEq, Repr

/-- Optional chaining `o?.k`. -/
def chainField (o : Option Json) (k : String) : Option Json :=
  o.bind (fun v => v.getField k)

/-- Optional chaining `o?.[i]`. -/
def chainIndex (o : Option Json) (i : Nat) : Option Json :=
  o.bind (fun v => v.getIndex i)

/-- `parseSpeaker` (part_002 lines 68-83): first truthy of the aliased
fields, string-coerced, lowercased, mapped through the two alias sets. -/
def parseSpeaker (payload : Json) : Option SpeakerTag :=
  match orChain
      [payload.getField "speaker",
       payload.getField "role",
       payload.getField "participant",
       chainField (payload.getField "metadata") "speaker",
       payload.getField "source"] with
  | none => none
  | some v =>
    let normalised := jsToLower (jsToString v)
    if ["user", "customer", "caller"].contains normalised then some .user
    else if ["assistant", "agent", "ai", "model", "bot", "system"].contains
        normalised then some .model
    else none

/-- The `words[]` fallback of `extractTranscriptText` (lines 95-97):
`payload.words.map(w => w?.word).filter(Boolean).join(" ")`. -/
def wordsFallback (payload : Json) : Option Json :=
  match payload.getField "words" with
  | some (.arr ws) =>
    let kept := ws.filterMap (fun w =>
      match w.getField "word" with
      | some v => if truthy v then some v else none
      | none => none)
    some (.str (String.intercalate " " (kept.map jsToString)))
  | _ => none

/-- `extractTranscriptText` (lines 85-99).  The function is declared
`string | null` but the `alternative?.transcript` branch returns the raw
field value, so the result is modelled as a JSON value. -/
def extractTranscriptText (payload : Json) : Option Json :=
  match payload.getField "transcript" with
  | some (.str s) => some (.str s)
  | _ =>
  match payload.getField "text" with
  | some (.str s) => some (.str s)
  | _ =>
  match payload.getField "content" with
  | some (.str s) => some (.str s)
  | _ =>
    let alternative := orChain
      [chainIndex (chainField (payload.getField "channel") "alternatives") 0,
       chainIndex (payload.getField "alternatives") 0,
       chainIndex (chainField (payload.getField "results") "alternatives") 0]
    match chainField alternative "transcript" with
    | some v => if truthy v then some v else wordsFallback payload
    | none => wordsFallback payload

/-- `isFinalTranscript` (lines 101-109): explicit flags, the
`final_transcript` type literal (strict equality), then the confidence
heuristic — a truthy `channel.alternatives[0].confidence` makes the
result `confidence > 0`. -/
def isFinalTranscript (payload : Json) : Bool :=
  if truthyOpt (payload.getField "is_final") ||
      truthyOpt (payload.getField "final") then true
  else if (match payload.getField "type" with
           | some (.str s) => s == "final_transcript"
           | _ => false) then true
  else
    match chainField
        (chainIndex (chainField (payload.getField "channel") "alternatives") 0)
        "confidence" with
    | some v => if truthy v then gtZero v else false
    | none => false

/-- `extractResponses` (lines 111-119). -/
def extractResponses (payload : Json) : List Json :=
  match payload.getField "responses" with
  | some (.arr items) => items
  | _ =>
  match chainField (payload.getField "response") "outputs" with
  | some (.arr items) => items
  | _ =>
  match payload.getField "output" with
  | some (.arr items) => items
  | _ =>
  match payload.getField "outputs" with
  | some (.arr items) => items
  | _ =>
  match payload.getField "response" with
  | some v => if truthy v then [v] else []
  | none => []

/-- `textFromResponse` (lines 121-136). -/
def textFromResponse (response : Json) : Option String :=
  match response.getField "text" with
  | some (.str s) => some s
  | _ =>
  match response.getField "content" with
  | some (.str s) => some s
  | _ =>
  match response.getField "value" with
  | some (.str s) => some s
  | _ =>
  match response.getField "messages" with
  | some (.arr items) =>
    let kept := items.filterMap (fun item =>
      orChain [item.getField "content", item.getField "text"])
    some (String.intercalate " " (kept.map jsToString))
  | _ =>
  match response.getField "texts" with
  | some (.arr items) =>
    some (String.intercalate " " ((items.filter truthy).map jsToString))
  | _ => none

/-- `responseIsComplete` (lines 158-169).  Note the sequencing: a truthy
`status` decides the answer by itself — `completion_reason` and `done`
are only consulted when `status` is absent or falsy. -/
def responseIsComplete (response : Json) : Bool :=
  if (match response.getField "type" with
      | some (.str s) => s == "completed" || s == "done"
      | _ => false) then true
  else if truthyOpt (response.getField "status") then
    match response.getField "status" with
    | some v =>
      ["completed", "complete", "finished", "done"].contains
        (jsToLower (jsToString v))
    | none => false
  else if truthyOpt (response.getField "completion_reason") then true
  else
    match response.getField "done" with
    | some (.bool true) => true
    | _ => false

/-- List-of-characters matcher: does the second list start with the
first? -/
def startsWithChars : List Char → List Char → Bool
  | [], _ => true
  | _ :: _, [] => false
  | p :: ps, c :: cs => p == c && startsWithChars ps cs

/-- Substring occurrence test over character lists. -/
def containsChars (pat : List Char) : List Char → Bool
  | [] => pat.isEmpty
  | c :: rest => startsWithChars pat (c :: rest) || containsChars pat rest

/-- JS `s.includes(pat)`. -/
def strContains (s pat : String) : Bool := containsChars pat.data s.data

/-- Line 401: `String(response.type ?? response.kind ?? "").toLowerCase()`. -/
def responseTypeOf (response : Json) : String :=
  jsToLower (jsToString ((coalesce
    [response.getField "type", response.getField "kind"]).getD (.str "")))

/-! ### Base64 audio decoding (`decodeBase64`, part_002 lines 53-66) -/

/-- JS regex class `\s` over the character range the payloads use
(ASCII whitespace). -/
def isWsChar (c : Char) : Bool :=
  c == ' ' || c == '\t' || c == '\n' || c == '\r' ||
  c == Char.ofNat 11 || c == Char.ofNat 12

/-- Value of a base64 alphabet character; `none` for a character `atob`
rejects. -/
def b64CharVal (c : Char) : Option Nat :=
  if 'A' ≤ c && c ≤ 'Z' then some (c.toNat - 65)
  else if 'a' ≤ c && c ≤ 'z' then some (c.toNat - 97 + 26)
  else if '0' ≤ c && c ≤ '9' then some (c.toNat - 48 + 52)
  else if c = '+' then some 62
  else if c = '/' then some 63
  else none

/-- Character of a sextet value, base64 standard alphabet. -/
def b64EncCharOf (n : Nat) : Char :=
  if n < 26 then Char.ofNat (65 + n)
  else if n < 52 then Char.ofNat (97 + (n - 26))
  else if n < 62 then Char.ofNat (48 + (n - 52))
  else if n = 62 then '+'
  else '/'

/-- Alphabet lookup over a whole string; fails on the first invalid
character (including stray `=`), as `atob` does. -/
def mapSextets : List Char → Option (List Nat)
  | [] => some []
  | c :: rest =>
    match b64CharVal c, mapSextets rest with
    | some v, some vs => some (v :: vs)
    | _, _ => none

/-- Bit reassembly of the forgiving-base64 decode: four sextets give
three bytes; a trailing pair gives one byte, a trailing triple two. -/
def sextetsToBytes : List Nat → Option (List Nat)
  | [] => some []
  | [_] => none
  | [a, b] => some [a * 4 + b / 16]
  | [a, b, c] => some [a * 4 + b / 16, (b % 16) * 16 + c / 4]
  | a :: b :: c :: d :: rest =>
    match sextetsToBytes rest with
    | some t =>
      some ([a * 4 + b / 16, (b % 16) * 16 + c / 4, (c % 4) * 64 + d] ++ t)
    | none => none

/-- Removal of one or two trailing `=` padding characters. -/
def dropTwoEq (cs : List Char) : List Char :=
  match cs.reverse with
  | a :: b :: t =>
    if a = '=' then (if b = '=' then t.reverse else (b :: t).reverse) else cs
  | [a] => if a = '=' then [] else cs
  | [] => cs

/-- The platform `atob` (forgiving-base64 decode): strip up to two `=`
of padding when the length is a multiple of four, reject a residue of
one, then decode; any out-of-alphabet character throws (`none`). -/
def atobDecode (cs : List Char) : Option (List Nat) :=
  let stripped := if cs.length % 4 == 0 then dropTwoEq cs else cs
  if stripped.length % 4 == 1 then none
  else
    match mapSextets stripped with
    | some sx => sextetsToBytes sx
    | none => none

/-- `decodeBase64` (lines 53-66): `atob(value.replace(/\s/g, ""))` into
a byte array; a decode failure is caught and yields `null`. -/
def decodeBase64 (value : String) : Option (List Nat) :=
  atobDecode (value.data.filter (fun c => !isWsChar c))

/-- Standard base64 of a byte list (specification side: the encoding a
payload uses to carry bytes `b` as a string). -/
def base64EncodeChars : List Nat → List Char
  | [] => []
  | [x] => [b64EncCharOf (x / 4), b64EncCharOf (x % 4 * 16), '=', '=']
  | [x, y] =>
    [b64EncCharOf (x / 4), b64EncCharOf (x % 4 * 16 + y / 16),
     b64EncCharOf (y % 16 * 4), '=']
  | x :: y :: z :: rest =>
    [b64EncCharOf (x / 4), b64EncCharOf (x % 4 * 16 + y / 16),
     b64EncCharOf (y % 16 * 4 + z / 64), b64EncCharOf (z % 64)] ++
    base64EncodeChars rest

/-- Standard base64 of a byte list, as a string. -/
def base64Encode (bs : List Nat) : String := ⟨base64EncodeChars bs⟩

/-! ### Audio extraction (`audioFromResponse`, part_002 lines 138-156) -/

/-- `Uint8Array` element coercion (`ToNumber` then `ToUint8`): integers
reduce modulo 256, booleans to 0/1, nullish and non-numeric values to 0
(`NaN` truncates to 0; numeric strings are outside the model). -/
def toUint8 : Json → Nat
  | .num n => (n % 256).toNat
  | .bool b => if b then 1 else 0
  | _ => 0

/-- `audioFromResponse` (lines 138-156): nullish-coalesced field lookup,
falsiness guard, then the four accepted encodings in source order (raw
buffer, base64 string, numeric array, wrapped Buffer object); anything
else yields `null`. -/
def audioFromResponse (response : Json) : Option (List Nat) :=
  match coalesce
      [response.getField "audio",
       response.getField "data",
       chainField (response.getField "payload") "audio",
       chainField (response.getField "payload") "data",
       response.getField "value"] with
  | none => none
  | some audio =>
    if !truthy audio then none
    else
      match audio with
      | .bytes d => some d
      | .str s => decodeBase64 s
      | .arr items => some (items.map toUint8)
      | other =>
        match other.getField "type", other.getField "data" with
        | some (.str "Buffer"), some (.arr items) => some (items.map toUint8)
        | _, _ => none

/-! ### Whitespace handling used by the text-delta paths -/

/-- Accumulator pass of `s.replace(/\s+/g, " ")`: every maximal run of
whitespace becomes one space; the flag records whether the previous
character belonged to a run. -/
def collapseAux : Bool → List Char → List Char
  | _, [] => []
  | prevWs, c :: cs =>
    if isWsChar c then
      if prevWs then collapseAux true cs else ' ' :: collapseAux true cs
    else c :: collapseAux false cs

/-- JS `s.replace(/\s+/g, " ")`. -/
def jsCollapseWs (s : String) : String := ⟨collapseAux false s.data⟩

/-- Whitespace removal from both ends of a character list. -/
def trimChars (l : List Char) : List Char :=
  ((l.dropWhile isWsChar).reverse.dropWhile isWsChar).reverse

/-- JS `s.trim()`. -/
def jsTrim (s : String) : String := ⟨trimChars s.data⟩

/-! ### Conversation Aggregator (part_002, `WebSocketProvider` state) -/

/-- The `Role` union of the source. -/
inductive Role where
  | user
  | model
deriving DecidableEq, Repr

/-- The `Message` record.  Ids are modelled as naturals drawn from a
per-state counter, determinizing the source's `Date.now()`+random id
strings (all the source relies on is that a fresh id differs from every
id already in the conversation). -/
structure Message where
  id : Nat
  role : Role
  content : String
  audio : Option (List Nat)
  voice : Option String
deriving DecidableEq, Repr

/-- The aggregator's mutable state: the `useState`/`useRef` cells of the
provider.  `scheduledAudio` models `scheduledAudioSourcesRef` by the
byte payloads of the queued source nodes; `scheduledStart` models
`scheduledStartRef` in sample units (the exact time scale is irrelevant
to the claims, only monotonicity and the reset to 0). -/
structure AggState where
  connection : Bool
  voice : String
  currentSpeaker : Option SpeakerTag
  microphoneOpen : Bool
  chatMessages : List Message
  incoming : Option Message
  scheduledAudio : List (List Nat)
  scheduledStart : Nat
  nextId : Nat
deriving Repr

/-- `ensureIncomingMessage` (lines 221-235): reuse the open message, or
open a fresh empty model message and append it to the conversation. -/
def ensureIncomingMessage (s : AggState) : AggState :=
  match s.incoming with
  | some _ => s
  | none =>
    let m : Message := ⟨s.nextId, .model, "", none, some s.voice⟩
    { s with incoming := some m,
             chatMessages := s.chatMessages ++ [m],
             nextId := s.nextId + 1 }

/-- The `Partial<Message>` updates actually passed by the call sites:
a content replacement and/or an audio replacement. -/
structure MessageUpdates where
  content : Option String
  audio : Option (List Nat)

/-- The spread `{...incomingMessageRef.current, ...updates}`. -/
def applyUpdates (m : Message) (u : MessageUpdates) : Message :=
  { m with content := u.content.getD m.content,
           audio := match u.audio with
             | some a => some a
             | none => m.audio }

/-- `updateIncomingMessage` (lines 237-252): ensure an open message,
then overwrite both the ref and the message's slot (found by id) in the
conversation. -/
def updateIncomingMessage (u : MessageUpdates) (s : AggState) : AggState :=
  let s := match s.incoming with
    | none => ensureIncomingMessage s
    | some _ => s
  match s.incoming with
  | none => s
  | some m =>
    let updated := applyUpdates m u
    { s with incoming := some updated,
             chatMessages := s.chatMessages.map
               (fun item => if item.id = updated.id then updated else item) }

/-- `finalizeIncomingMessage` (lines 254-265): flush the ref's value
into the conversation one last time, drop the ref, and wait for the next
user turn. -/
def finalizeIncomingMessage (s : AggState) : AggState :=
  match s.incoming with
  | none => s
  | some m =>
    { s with chatMessages := s.chatMessages.map
               (fun item => if item.id = m.id then m else item),
             incoming := none,
             currentSpeaker := some .userWaiting }

/-- `clearScheduledAudio` (lines 267-278): stop and drop every queued
source and reset the schedule cursor. -/
def clearScheduledAudio (s : AggState) : AggState :=
  { s with scheduledAudio := [], scheduledStart := 0 }

/-- `playAudio` (lines 280-315).  `ctxActive` models whether
`audioContextRef.current` is non-null: when it is null the function
returns before any other work.  With a context, `new
Int16Array(audioData)` throws a RangeError when the byte length is odd —
returned as the `true` flag, with no state change, since the throw
precedes every mutation; the caller's enclosing try/catch turns it into
an abort of the rest of the payload's processing.  Otherwise an empty
view is ignored, and a non-empty segment starts at `max(cursor, now)`
with the cursor advancing by its duration (modelled in sample units). -/
def playAudio (ctxActive : Bool) (now : Nat) (audioData : List Nat)
    (s : AggState) : AggState × Bool :=
  if !ctxActive then (s, false)
  else if audioData.length % 2 = 1 then (s, true)
  else
    let samples := audioData.length / 2
    if samples = 0 then (s, false)
    else
      let start := max s.scheduledStart now
      ({ s with scheduledStart := start + samples,
                scheduledAudio := s.scheduledAudio ++ [audioData] }, false)

/-- The transcript-path content combination (lines 380-382):
`existing ? existing + " " + text with /\s+/g collapsed, trimmed : text`. -/
def combineTranscriptText (existing text : String) : String :=
  if existing ≠ "" then jsTrim (jsCollapseWs (existing ++ " " ++ text))
  else text

/-- The agent-response-path content combination (line 410):
`existing ? (existing + " " + text).trim() : text`. -/
def combineAgentText (existing text : String) : String :=
  if existing ≠ "" then jsTrim (existing ++ " " ++ text) else text

/-- `handleTranscriptMessage` (lines 357-389).  The extracted text value
is string-coerced on storage (exact whenever the payload carries a
string, which is every case the claims quantify over). -/
def handleTranscriptMessage (payload : Json) (s : AggState) : AggState :=
  match extractTranscriptText payload with
  | none => s
  | some textVal =>
    if !truthy textVal then s
    else
      let speaker := (parseSpeaker payload).getD .user
      let isFinal := isFinalTranscript payload
      if speaker = .user && isFinal then
        let s := { s with currentSpeaker := some SpeakerTag.user }
        let s := clearScheduledAudio s
        let s := { s with incoming := none }
        { s with chatMessages := s.chatMessages ++
                   [⟨s.nextId, .user, jsToString textVal, none, none⟩],
                 nextId := s.nextId + 1 }
      else if speaker = .model then
        let s := ensureIncomingMessage s
        let existing := (s.incoming.map (fun m => m.content)).getD ""
        updateIncomingMessage
          ⟨some (combineTranscriptText existing (jsToString textVal)), none⟩ s
      else s

/-- The text half of one `responses.forEach` iteration
(lines 401-413). -/
def stepText (response : Json) (s : AggState) : AggState :=
  if strContains (responseTypeOf response) "text" ||
      responseTypeOf response == "message" then
    match textFromResponse response with
    | some text =>
      if text ≠ "" then
        let s := { s with currentSpeaker := some SpeakerTag.model }
        let s := ensureIncomingMessage s
        let existing := (s.incoming.map (fun m => m.content)).getD ""
        updateIncomingMessage
          ⟨some (combineAgentText existing text), none⟩ s
      else s
    | none => s
  else s

/-- The audio half of one `responses.forEach` iteration
(lines 415-427): the message's cumulative audio is updated before
`playAudio` runs, so a `playAudio` throw (flag `true`) leaves the
update in place. -/
def stepAudio (ctxActive : Bool) (now : Nat) (response : Json)
    (s : AggState) : AggState × Bool :=
  match audioFromResponse response with
  | some audioBuffer =>
    let s := { s with currentSpeaker := some SpeakerTag.model }
    let s := ensureIncomingMessage s
    let combined :=
      match s.incoming.bind (fun m => m.audio) with
      | some existing => existing ++ audioBuffer
      | none => audioBuffer
    let s := updateIncomingMessage ⟨none, some combined⟩ s
    playAudio ctxActive now audioBuffer s
  | none => (s, false)

/-- One iteration of the `responses.forEach` body of
`handleAgentResponse` (lines 396-432): skip a falsy sub-object, apply
the text half, the audio half, then — unless the audio half threw — the
per-sub-object completion check.  The `true` flag propagates the
uncaught exception. -/
def agentResponseStep (ctxActive : Bool) (now : Nat) (s : AggState)
    (response : Json) : AggState × Bool :=
  if !truthy response then (s, false)
  else
    let s := stepText response s
    let sa := stepAudio ctxActive now response s
    if sa.2 then sa
    else
      (if responseIsComplete response then finalizeIncomingMessage sa.1
       else sa.1, false)

/-- The `responses.forEach` loop: an exception in one iteration aborts
the remaining iterations and propagates. -/
def runResponses (ctxActive : Bool) (now : Nat) :
    List Json → AggState → AggState × Bool
  | [], s => (s, false)
  | r :: rest, s =>
    let sr := agentResponseStep ctxActive now s r
    if sr.2 then sr else runResponses ctxActive now rest sr.1

/-- `handleAgentResponse` (lines 391-444): early return on an empty
sub-object list, the per-sub-object loop, then the outer payload-level
completion check — skipped when an iteration threw, since the exception
propagates to `handleUpstreamMessage`'s catch (lines 449, 482-484),
which only logs it. -/
def handleAgentResponse (ctxActive : Bool) (now : Nat) (payload : Json)
    (s : AggState) : AggState :=
  let responses := extractResponses payload
  if responses.isEmpty then s
  else
    let run := runResponses ctxActive now responses s
    if run.2 then run.1
    else if responseIsComplete payload then finalizeIncomingMessage run.1
    else run.1

/-- `handleSocketClose` (lines 522-528). -/
def handleSocketClose (s : AggState) : AggState :=
  clearScheduledAudio
    { s with connection := false, microphoneOpen := false,
             currentSpeaker := none, incoming := none }

/-! ### Canonical event trace of one `agent-response` payload -/

/-- The data/completion events the claims speak about:
`ResponseTextDelta`, `ResponseAudioDelta` and `TurnComplete` of the
spec's `CanonicalEvent` union. -/
inductive CanonicalEvent where
  | textDelta (text : String)
  | audioDelta (data : List Nat)
  | turnComplete
deriving DecidableEq, Repr

/-- Whether an event is a data event (text or audio delta). -/
def CanonicalEvent.isData : CanonicalEvent → Bool
  | .textDelta _ => true
  | .audioDelta _ => true
  | .turnComplete => false

/-- Whether processing this sub-object throws: its extracted audio
reaches `playAudio` with an active audio context and an odd byte
length, so the `Int16Array` view construction raises a RangeError
(lines 285, 415-427). -/
def audioAborts (ctxActive : Bool) (response : Json) : Bool :=
  match audioFromResponse response with
  | some d => ctxActive && d.length % 2 == 1
  | none => false

/-- The sub-objects the `forEach` loop actually processes: everything up
to and including the first one whose audio playback throws. -/
def processedPrefix (ctxActive : Bool) : List Json → List Json
  | [] => []
  | r :: rest =>
    if audioAborts ctxActive r then [r]
    else r :: processedPrefix ctxActive rest

/-- The events one `responses.forEach` iteration produces, in execution
order (lines 396-432): the text update, then the audio update (which
precedes the possible `playAudio` throw), then — unless that iteration
threw — a synthesized completion. -/
def responseEvents (ctxActive : Bool) (response : Json) :
    List CanonicalEvent :=
  if !truthy response then []
  else
    (if strContains (responseTypeOf response) "text" ||
        responseTypeOf response == "message" then
      match textFromResponse response with
      | some text => if text ≠ "" then [.textDelta text] else []
      | none => []
    else []) ++
    (match audioFromResponse response with
     | some d => [.audioDelta d]
     | none => []) ++
    (if audioAborts ctxActive response then []
     else if responseIsComplete response then [.turnComplete] else [])

/-- The events one raw `agent-response` payload produces, in execution
order (lines 391-444): the processed sub-objects in order, then — when
no iteration threw — the payload-level completion (skipped if an
iteration threw, because the exception propagates out of
`handleAgentResponse`). -/
def agentResponseEvents (ctxActive : Bool) (payload : Json) :
    List CanonicalEvent :=
  let responses := extractResponses payload
  if responses.isEmpty then []
  else
    ((processedPrefix ctxActive responses).map
      (responseEvents ctxActive)).flatten ++
    (if responses.any (audioAborts ctxActive) then []
     else if responseIsComplete payload then [.turnComplete]
     else [])

/-! ## Supporting lemmas -/

lemma find?_replaceKey_self (fs : List (String × Json)) (k : String) (v : Json)
    (h : fs.any (fun kv => kv.1 = k) = true) :
    (fs.map (fun kv => if kv.1 = k then (k, v) else kv)).find?
      (fun kv => kv.1 = k) = some (k, v) := by
  induction fs with
  | nil => simp at h
  | cons kv rest ih =>
    by_cases hk : kv.1 = k
    · simp [List.find?_cons, hk]
    · simp only [List.any_cons, hk, decide_False, Bool.false_or] at h
      simp [List.find?_cons, hk, ih h]

lemma find?_replaceKey_other (fs : List (String × Json)) (k k' : String)
    (v : Json) (hk' : k' ≠ k) :
    (fs.map (fun kv => if kv.1 = k then (k, v) else kv)).find?
      (fun kv => kv.1 = k') = fs.find? (fun kv => kv.1 = k') := by
  induction fs with
  | nil => rfl
  | cons kv rest ih =>
    by_cases hk : kv.1 = k
    · have h1 : (if kv.1 = k then (k, v) else kv) = (k, v) := if_pos hk
      have h2 : decide ((k, v).1 = k') = false := by simp [Ne.symm hk']
      have h3 : decide (kv.1 = k') = false := by rw [hk]; simp [Ne.symm hk']
      rw [List.map_cons, h1, List.find?_cons, h2, List.find?_cons, h3, ih]
    · have h1 : (if kv.1 = k then (k, v) else kv) = kv := if_neg hk
      rw [List.map_cons, h1, List.find?_cons, List.find?_cons]
      cases hkv : decide (kv.1 = k') with
      | true => rfl
      | false => exact ih

lemma getField_setKey_self (fs : List (String × Json)) (k : String) (v : Json) :
    Json.getField (.obj (Json.setKey fs k v)) k = some v := by
  unfold Json.setKey
  by_cases h : fs.any (fun kv => kv.1 = k)
  · simp only [h, if_pos]
    simp [Json.getField, find?_replaceKey_self fs k v h]
  · simp only [h, if_neg, Bool.not_eq_true]
    have hn : fs.find? (fun kv => decide (kv.1 = k)) = none := by
      rw [List.find?_eq_none]
      intro x hx hpx
      exact h (List.any_eq_true.mpr ⟨x, hx, hpx⟩)
    simp [Json.getField, List.find?_append, hn, List.find?_cons]

lemma getField_setKey_other (fs : List (String × Json)) (k k' : String)
    (v : Json) (hk' : k' ≠ k) :
    Json.getField (.obj (Json.setKey fs k v)) k' = Json.getField (.obj fs) k' := by
  unfold Json.setKey
  by_cases h : fs.any (fun kv => kv.1 = k)
  · simp only [h, if_pos]
    simp [Json.getField, find?_replaceKey_other fs k k' v hk']
  · simp only [h, if_neg, Bool.not_eq_true]
    simp [Json.getField, List.find?_append, List.find?_cons, hk'.symm]

/-! ## Claim theorems -/

/-- C9: if the upstream credential is missing the upgrade handler
returns HTTP 500 with the JSON error body; otherwise a request whose
`upgrade` header is not `websocket` case-insensitively gets HTTP 400
with its JSON error body.  Both outcomes are `RouteOutcome.reject`, the
constructor reached before the socket pair or the upstream connection
is created, so no upstream connection is attempted and no socket is
opened. -/
theorem c9_upgrade_guard (key upg : Option String) :
    (optTruthy key = false →
      routeGuard key upg = .reject 500 "Deepgram API key is not configured.") ∧
    (optTruthy key = true → upg.map jsToLower ≠ some "websocket" →
      routeGuard key upg = .reject 400 "Expected a WebSocket upgrade request.") := by
  constructor
  · intro h
    simp [routeGuard, h]
  · intro h hupg
    simp [routeGuard, h, hupg]

/-- Witness for C9 at concrete inputs: a missing key is rejected with
500, and a present key with a missing upgrade header is rejected with
400. -/
theorem c9_upgrade_guard_witness :
    routeGuard none (some "websocket") =
      .reject 500 "Deepgram API key is not configured." ∧
    routeGuard (some "k") none =
      .reject 400 "Expected a WebSocket upgrade request." :=
  ⟨(c9_upgrade_guard none (some "websocket")).1 (by decide),
   (c9_upgrade_guard (some "k") none).2 (by decide) (by decide)⟩

/-- C2: the client→upstream string path forwards the input byte-identically
whenever no external model config is configured, or the message does not
parse as JSON, or its parsed `type` discriminator is not `agent-request`
case-insensitively (including a non-string `type`, whose `toLowerCase`
throw is caught).  `forwardClientString` is a total function, so a parse
failure can never raise an error out of the forwarding path. -/
theorem c2_passthrough (c : AppConfig) (parse : String → Option Json)
    (msg : String)
    (h : shouldInjectExternalLlm c = false ∨ parse msg = none ∨
      (∀ j, parse msg = some j → typeDiscriminator j ≠ some "agent-request")) :
    forwardClientString c parse msg = msg := by
  rcases h with h | h | h
  · simp [forwardClientString, h]
  · simp [forwardClientString, injectExternalThinkSettings, h]
  · by_cases hs : shouldInjectExternalLlm c
    · cases hp : parse msg with
      | none => simp [forwardClientString, injectExternalThinkSettings, hs, hp]
      | some j =>
        have hne := h j hp
        unfold forwardClientString injectExternalThinkSettings
        simp only [hs, Bool.not_true, Bool.false_eq_true, if_false, if_true, hp]
        cases ht : typeDiscriminator j with
        | none => simp
        | some ty =>
          have : ty ≠ "agent-request" := by
            intro hty
            exact hne (hty ▸ ht)
          simp [this]
    · simp [forwardClientString, hs]

/-- Witness for C2 at concrete inputs: with no provider configured and a
parser that fails, the message is forwarded unchanged. -/
theorem c2_passthrough_witness :
    forwardClientString ⟨some "dg", none, none, none⟩ (fun _ => none) "hello" =
      "hello" :=
  c2_passthrough ⟨some "dg", none, none, none⟩ (fun _ => none) "hello"
    (Or.inl (by decide))

/-- C1 (amended): for a message parsing to an object whose `type` equals
`agent-request` case-insensitively, under a configured provider and api
key, the rewrite sets `agent.think` to the block built from the
lowercased provider (`derivedLlmProvider`), the configured model or the
default keyed by the lowercased provider (`derivedLlmModel`), and the
api key; any existing `agent.instructions` keeps its value, and every
top-level field other than `agent` is unchanged. -/
theorem c1_injection (c : AppConfig) (parse : String → Option Json)
    (msg : String) (fields afields : List (String × Json)) (ty : String)
    (hinj : shouldInjectExternalLlm c = true)
    (hparse : parse msg = some (.obj fields))
    (hty : Json.getField (.obj fields) "type" = some (.str ty))
    (htyl : jsToLower ty = "agent-request")
    (hagent : Json.getField (.obj fields) "agent" = some (.obj afields)) :
    ∃ agentFields' : List (String × Json),
      injectExternalThinkSettings c parse msg =
        some (.obj (Json.setKey fields "agent" (.obj agentFields'))) ∧
      Json.getField (.obj agentFields') "think" =
        some (thinkConfig ((derivedLlmProvider c).getD "") (derivedLlmModel c)
          ((c.llmApiKey).getD "")) ∧
      (∀ v, Json.getField (.obj afields) "instructions" = some v →
        Json.getField (.obj agentFields') "instructions" = some v) ∧
      (∀ k, k ≠ "agent" →
        Json.getField (.obj (Json.setKey fields "agent" (.obj agentFields'))) k =
          Json.getField (.obj fields) k) ∧
      chainField (chainField (Json.getField (.obj agentFields') "think")
          "provider") "type" =
        some (.str ((derivedLlmProvider c).getD "")) ∧
      chainField (Json.getField (.obj agentFields') "think") "auth" =
        some (.obj [("type", .str "api_key"),
                    ("value", .str ((c.llmApiKey).getD ""))]) ∧
      (∀ m, derivedLlmModel c = some m → m ≠ "" →
        chainField (chainField (Json.getField (.obj agentFields') "think")
            "provider") "model" = some (.str m)) := by
  classical
  set think := thinkConfig ((derivedLlmProvider c).getD "") (derivedLlmModel c)
    ((c.llmApiKey).getD "") with hthink
  set withInstructions :=
    (match afields.find? (fun kv => kv.1 = "instructions") with
     | some kv => Json.setKey afields "instructions" kv.2
     | none => afields) with hwi
  refine ⟨Json.setKey withInstructions "think" think, ?_, ?_, ?_, ?_, ?_, ?_, ?_⟩
  · simp only [injectExternalThinkSettings, hinj, Bool.not_true, Bool.false_eq_true,
      if_false, hparse, typeDiscriminator, hty, htyl, agentFieldsOf, hagent]
    simp
  · exact getField_setKey_self ..
  · intro v hv
    rw [getField_setKey_other _ _ _ _ (by decide)]
    simp only [Json.getField] at hv
    cases hfind : afields.find? (fun kv => decide (kv.1 = "instructions")) with
    | none => rw [hfind] at hv; simp at hv
    | some kv =>
      rw [hfind] at hv
      have hv2 : kv.2 = v := by simpa using hv
      rw [hwi]
      simp only [hfind, hv2]
      exact getField_setKey_self ..
  · intro k hk
    exact getField_setKey_other _ _ _ _ hk
  · rw [getField_setKey_self, hthink]
    simp [thinkConfig, chainField, Json.getField, List.find?_cons]
  · rw [getField_setKey_self, hthink]
    simp [thinkConfig, chainField, Json.getField, List.find?_cons]
  · intro m hm hm'
    rw [getField_setKey_self, hthink]
    simp [thinkConfig, chainField, Json.getField, List.find?_cons, hm, hm']

/-- A config whose provider is spelled with capitals. -/
def c1cfg : AppConfig := ⟨some "dg", some "OpenAI", some "k", none⟩

/-- A minimal parsed `agent-request` message. -/
def c1payload : Json := .obj [("type", .str "agent-request")]

/-- Parser fixture returning `c1payload` for any input. -/
def c1parse : String → Option Json := fun _ => some c1payload

/-- Counterexample to C1 as stated: with configured provider `"OpenAI"`
the rewritten message's `agent.think.provider.type` is the lowercased
`"openai"`, not the configured provider string. -/
theorem c1_counterexample :
    c1cfg.llmProvider = some "OpenAI" ∧
    chainField (chainField (chainField
      ((injectExternalThinkSettings c1cfg c1parse "m").bind
        (fun j => j.getField "agent")) "think") "provider") "type" =
      some (.str "openai") ∧
    "openai" ≠ "OpenAI" :=
  ⟨rfl, rfl, by decide⟩

/-- Config for the C1 witness: provider `openai`, key `k`, no model. -/
def c1wcfg : AppConfig := ⟨some "dg", some "openai", some "k", none⟩

/-- Field list of the witness message. -/
def c1wfields : List (String × Json) :=
  [("type", .str "Agent-Request"),
   ("agent", .obj [("instructions", .str "sys")]),
   ("audio", .num 24000)]

/-- Parser fixture for the C1 witness. -/
def c1wparse : String → Option Json := fun _ => some (.obj c1wfields)

/-- Witness for C1 at a concrete message and config (default model
`gpt-4o-mini` for provider `openai`). -/
theorem c1_injection_witness :
    ∃ agentFields' : List (String × Json),
      injectExternalThinkSettings c1wcfg c1wparse "m" =
        some (.obj (Json.setKey c1wfields "agent" (.obj agentFields'))) ∧
      Json.getField (.obj agentFields') "think" =
        some (thinkConfig ((derivedLlmProvider c1wcfg).getD "")
          (derivedLlmModel c1wcfg) ((c1wcfg.llmApiKey).getD "")) ∧
      (∀ v, Json.getField (.obj [("instructions", Json.str "sys")])
          "instructions" = some v →
        Json.getField (.obj agentFields') "instructions" = some v) ∧
      (∀ k, k ≠ "agent" →
        Json.getField (.obj (Json.setKey c1wfields "agent"
          (.obj agentFields'))) k = Json.getField (.obj c1wfields) k) ∧
      chainField (chainField (Json.getField (.obj agentFields') "think")
          "provider") "type" =
        some (.str ((derivedLlmProvider c1wcfg).getD "")) ∧
      chainField (Json.getField (.obj agentFields') "think") "auth" =
        some (.obj [("type", .str "api_key"),
                    ("value", .str ((c1wcfg.llmApiKey).getD ""))]) ∧
      (∀ m, derivedLlmModel c1wcfg = some m → m ≠ "" →
        chainField (chainField (Json.getField (.obj agentFields') "think")
            "provider") "model" = some (.str m)) :=
  c1_injection c1wcfg c1wparse "m" c1wfields [("instructions", .str "sys")]
    "Agent-Request" (by decide) rfl rfl (by decide) rfl

/-- C5 (amended): the finality flag is true whenever an explicit final
flag is set (`is_final` or `final` truthy), or the `type` literal is
exactly `"final_transcript"`, or the nested
`channel.alternatives[0].confidence` is truthy AND numerically greater
than zero (the source returns `confidence > 0`, not mere truthiness). -/
theorem c5_finality (p : Json) :
    (Json.truthyOpt (p.getField "is_final") = true ∨
       Json.truthyOpt (p.getField "final") = true →
      isFinalTranscript p = true) ∧
    (p.getField "type" = some (.str "final_transcript") →
      isFinalTranscript p = true) ∧
    (∀ v, chainField (chainIndex (chainField (p.getField "channel")
        "alternatives") 0) "confidence" = some v →
      Json.truthy v = true → Json.gtZero v = true →
      isFinalTranscript p = true) := by
  refine ⟨?_, ?_, ?_⟩
  · intro h
    rcases h with h | h <;> simp [isFinalTranscript, h]
  · intro h
    simp [isFinalTranscript, h]
  · intro v hv htr hgt
    simp [isFinalTranscript, hv, htr, hgt]

/-- A transcript payload carrying a truthy but negative confidence. -/
def c5payload : Json :=
  .obj [("channel", .obj [("alternatives",
    .arr [.obj [("confidence", .num (-1))]])])]

/-- Counterexample to C5 as stated: the nested confidence `-1` is
truthy, yet the computed finality flag is false (the code tests
`confidence > 0`, not truthiness). -/
theorem c5_counterexample :
    chainField (chainIndex (chainField (c5payload.getField "channel")
      "alternatives") 0) "confidence" = some (.num (-1)) ∧
    Json.truthy (.num (-1)) = true ∧
    isFinalTranscript c5payload = false :=
  ⟨rfl, rfl, rfl⟩

/-- A transcript payload carrying a positive nested confidence. -/
def c5wpayload : Json :=
  .obj [("channel", .obj [("alternatives",
    .arr [.obj [("confidence", .num 1)]])])]

/-- Witness for C5 at concrete payloads: an explicit flag, the type
literal, and a positive confidence each force finality. -/
theorem c5_finality_witness :
    isFinalTranscript (.obj [("is_final", .bool true)]) = true ∧
    isFinalTranscript (.obj [("type", .str "final_transcript")]) = true ∧
    isFinalTranscript c5wpayload = true :=
  ⟨(c5_finality (.obj [("is_final", .bool true)])).1 (Or.inl rfl),
   (c5_finality (.obj [("type", .str "final_transcript")])).2.1 rfl,
   (c5_finality c5wpayload).2.2 (.num 1) rfl rfl rfl⟩

lemma c6aux_type (r : Json) :
    (match r.getField "type" with
     | some (.str s) => s == "completed" || s == "done"
     | _ => false) = true ↔
    (r.getField "type" = some (.str "completed") ∨
     r.getField "type" = some (.str "done")) := by
  rcases h : r.getField "type" with _ | tv
  · simp
  · cases tv <;> simp_all

/-- C6 (amended): a response sub-object is detected as complete iff its
`type` is exactly `"completed"` or `"done"`, or it carries a truthy
`status` whose lowercased string image is in {completed, complete,
finished, done}, or it carries no truthy `status` and either a truthy
`completion_reason` or `done === true`.  A truthy non-matching `status`
returns early, so it suppresses the `completion_reason` and `done`
checks; and `completion_reason` must be truthy, not merely present. -/
theorem c6_completion (r : Json) :
    responseIsComplete r = true ↔
      ((r.getField "type" = some (.str "completed") ∨
        r.getField "type" = some (.str "done")) ∨
       (∃ v, r.getField "status" = some v ∧ Json.truthy v = true ∧
         (jsToLower (jsToString v) = "completed" ∨
          jsToLower (jsToString v) = "complete" ∨
          jsToLower (jsToString v) = "finished" ∨
          jsToLower (jsToString v) = "done")) ∨
       (Json.truthyOpt (r.getField "status") = false ∧
         (Json.truthyOpt (r.getField "completion_reason") = true ∨
          r.getField "done" = some (.bool true)))) := by
  unfold responseIsComplete
  by_cases hA : (match r.getField "type" with
     | some (.str s) => s == "completed" || s == "done"
     | _ => false) = true
  · rw [if_pos hA]
    exact iff_of_true rfl (Or.inl ((c6aux_type r).mp hA))
  · rw [if_neg hA]
    have hA' : ¬(r.getField "type" = some (.str "completed") ∨
        r.getField "type" = some (.str "done")) :=
      fun hd => hA ((c6aux_type r).mpr hd)
    by_cases hB : Json.truthyOpt (r.getField "status") = true
    · rw [if_pos hB]
      rcases hst : r.getField "status" with _ | sv
      · rw [hst] at hB
        simp [Json.truthyOpt] at hB
      · have htr : Json.truthy sv = true := by
          rw [hst] at hB
          simpa [Json.truthyOpt] using hB
        constructor
        · intro hc
          refine Or.inr (Or.inl ⟨sv, rfl, htr, ?_⟩)
          simpa [List.contains, List.elem_cons] using hc
        · rintro (h1 | ⟨v, hv, -, hdis⟩ | ⟨hf, -⟩)
          · exact absurd h1 hA'
          · have hvv : sv = v := by injection hv
            subst hvv
            simpa [List.contains, List.elem_cons] using hdis
          · simp [Json.truthyOpt, htr] at hf
    · rw [if_neg hB]
      have hB' : Json.truthyOpt (r.getField "status") = false := by
        simpa using hB
      have hnex : ¬∃ v, r.getField "status" = some v ∧ Json.truthy v = true ∧
          (jsToLower (jsToString v) = "completed" ∨
           jsToLower (jsToString v) = "complete" ∨
           jsToLower (jsToString v) = "finished" ∨
           jsToLower (jsToString v) = "done") := by
        rintro ⟨v, hv, htv, -⟩
        rw [hv] at hB'
        simp [Json.truthyOpt, htv] at hB'
      by_cases hD : Json.truthyOpt (r.getField "completion_reason") = true
      · rw [if_pos hD]
        exact iff_of_true rfl (Or.inr (Or.inr ⟨hB', Or.inl hD⟩))
      · rw [if_neg hD]
        have hD' : Json.truthyOpt (r.getField "completion_reason") = false := by
          simpa using hD
        rcases hdn : r.getField "done" with _ | dv
        · constructor
          · intro h
            exact absurd h (by simp)
          · rintro (h1 | h2 | ⟨-, h3 | h3⟩)
            · exact absurd h1 hA'
            · exact absurd h2 hnex
            · rw [hD'] at h3; exact absurd h3 (by simp)
            · exact absurd h3 (by simp)
        · constructor
          · intro h
            refine Or.inr (Or.inr ⟨hB', Or.inr ?_⟩)
            rcases dv with _ | b | n | s | l | f | d
            · exact absurd h (by simp)
            · cases b
              · exact absurd h (by simp)
              · rfl
            · exact absurd h (by simp)
            · exact absurd h (by simp)
            · exact absurd h (by simp)
            · exact absurd h (by simp)
            · exact absurd h (by simp)
          · rintro (h1 | h2 | ⟨-, h3 | h3⟩)
            · exact absurd h1 hA'
            · exact absurd h2 hnex
            · rw [hD'] at h3; exact absurd h3 (by simp)
            · have hdv : dv = .bool true := by injection h3
              subst hdv
              rfl

/-- A sub-object with a non-matching truthy status and `done: true`. -/
def c6response : Json :=
  .obj [("status", .str "in_progress"), ("done", .bool true)]

/-- Counterexample to C6 as stated: a sub-object with non-matching
`status` `"in_progress"` but `done: true` is NOT detected as complete —
the truthy status returns early. -/
theorem c6_counterexample :
    c6response.getField "status" = some (.str "in_progress") ∧
    c6response.getField "done" = some (.bool true) ∧
    responseIsComplete c6response = false :=
  ⟨rfl, rfl, rfl⟩

lemma responseIsComplete_falsy (r : Json) (h : Json.truthy r = false) :
    responseIsComplete r = false := by
  cases r <;>
    simp_all [responseIsComplete, Json.truthy, Json.getField, Json.truthyOpt]

lemma responseEvents_textPart (r : Json) :
    ∀ e ∈ (if strContains (responseTypeOf r) "text" ||
        responseTypeOf r == "message" then
      match textFromResponse r with
      | some text => if text ≠ "" then [CanonicalEvent.textDelta text] else []
      | none => []
    else []), e.isData = true := by
  intro e he
  repeat split at he
  all_goals simp_all [CanonicalEvent.isData]

lemma responseEvents_audioPart (r : Json) :
    ∀ e ∈ (match audioFromResponse r with
      | some d => [CanonicalEvent.audioDelta d]
      | none => ([] : List CanonicalEvent)), e.isData = true := by
  intro e he
  split at he
  all_goals simp_all [CanonicalEvent.isData]

/-- C4 (amended): the events derived from one `agent-response` payload
appear grouped by response sub-object, in sub-object order, over the
prefix of sub-objects the loop processes (an odd-byte-length audio
chunk makes playback throw when an output audio context is active,
aborting the rest of that payload's processing); when completion is
detected at the outer payload level and no iteration threw, the
synthesized TurnComplete is the last event, after every data event of
the payload; and when completion is detected on a processed,
non-throwing sub-object the synthesized TurnComplete is the last event
of that sub-object's own group — it follows that sub-object's data
events, but precedes events of later sub-objects. -/
theorem c4_ordering (ctx : Bool) (p : Json) (hne : extractResponses p ≠ []) :
    (agentResponseEvents ctx p).filter CanonicalEvent.isData =
      ((processedPrefix ctx (extractResponses p)).map
        (fun r => (responseEvents ctx r).filter CanonicalEvent.isData)).flatten ∧
    (responseIsComplete p = true →
      (extractResponses p).any (audioAborts ctx) = false →
      (agentResponseEvents ctx p).getLast? = some .turnComplete) ∧
    (∀ r ∈ extractResponses p, responseIsComplete r = true →
      audioAborts ctx r = false →
      (responseEvents ctx r).getLast? = some .turnComplete ∧
      ∀ e ∈ responseEvents ctx r, e ≠ .turnComplete → e.isData = true) := by
  have hie : (extractResponses p).isEmpty = false := by
    simp [hne]
  refine ⟨?_, ?_, ?_⟩
  · simp only [agentResponseEvents, hie, Bool.false_eq_true, if_false,
      List.filter_append]
    have htail : (if (extractResponses p).any (audioAborts ctx) then []
        else if responseIsComplete p then [CanonicalEvent.turnComplete]
        else []).filter CanonicalEvent.isData = [] := by
      split
      · simp
      · split <;> simp [CanonicalEvent.isData]
    rw [htail, List.append_nil, List.filter_flatten, List.map_map]
    rfl
  · intro hc hnab
    simp only [agentResponseEvents, hie, Bool.false_eq_true, if_false, hnab,
      hc, if_true]
    exact List.getLast?_concat _
  · intro r _ hc hab
    have htr : Json.truthy r = true := by
      by_contra h
      rw [responseIsComplete_falsy r (by simpa using h)] at hc
      exact absurd hc (by simp)
    constructor
    · simp only [responseEvents, htr, Bool.not_true, Bool.false_eq_true,
        if_false, hab, hc, if_true]
      exact List.getLast?_concat _
    · intro e he hnetc
      simp only [responseEvents, htr, Bool.not_true, Bool.false_eq_true,
        if_false] at he
      rcases List.mem_append.mp he with he2 | he3
      · rcases List.mem_append.mp he2 with h4 | h5
        · exact responseEvents_textPart r e h4
        · exact responseEvents_audioPart r e h5
      · split at he3 <;> simp_all

/-- The C4 counterexample payload: a completed sub-object followed by a
text sub-object. -/
def c4payload : Json :=
  .obj [("type", .str "agent-response"),
        ("responses", .arr
          [.obj [("status", .str "completed")],
           .obj [("type", .str "text"), ("text", .str "hi")]])]

/-- Counterexample to C4 as stated: completion is detected on the first
sub-object, yet the synthesized TurnComplete precedes the data event
derived from the second sub-object of the same payload. -/
theorem c4_counterexample :
    responseIsComplete (Json.obj [("status", Json.str "completed")]) = true ∧
    agentResponseEvents true c4payload =
      [.turnComplete, .textDelta "hi"] ∧
    CanonicalEvent.isData (.textDelta "hi") = true :=
  ⟨rfl, rfl, rfl⟩

/-- C4 witness payload: a text sub-object, then an audio sub-object
with an even byte length, with payload-level completion. -/
def c4wpayload : Json :=
  .obj [("type", .str "agent-response"),
        ("responses", .arr
          [.obj [("type", .str "text"), ("text", .str "hi")],
           .obj [("type", .str "audio"), ("audio", .bytes [1, 2])]]),
        ("status", .str "completed")]

/-- Witness for C4 at the concrete two-sub-object payload with an
active audio context. -/
theorem c4_ordering_witness :
    (agentResponseEvents true c4wpayload).filter CanonicalEvent.isData =
      ((processedPrefix true (extractResponses c4wpayload)).map
        (fun r =>
          (responseEvents true r).filter CanonicalEvent.isData)).flatten ∧
    (responseIsComplete c4wpayload = true →
      (extractResponses c4wpayload).any (audioAborts true) = false →
      (agentResponseEvents true c4wpayload).getLast? = some .turnComplete) ∧
    (∀ r ∈ extractResponses c4wpayload, responseIsComplete r = true →
      audioAborts true r = false →
      (responseEvents true r).getLast? = some .turnComplete ∧
      ∀ e ∈ responseEvents true r, e ≠ .turnComplete → e.isData = true) :=
  c4_ordering true c4wpayload
    (by intro h; exact absurd (congrArg List.length h) (by decide))

/-- C8: from any aggregator state with an open model message and a
non-empty playback schedule, a final user transcript carrying truthy
extractable text closes the open message (the ref becomes `none`),
clears the scheduled-audio queue and resets its cursor to 0, and appends
a new finalized user message with the transcript text as the last
element of the conversation. -/
theorem c8_barge_in (p : Json) (s : AggState) (t : Json)
    (_hopen : s.incoming.isSome = true)
    (_hsched : s.scheduledAudio ≠ [])
    (htext : extractTranscriptText p = some t)
    (htruthy : Json.truthy t = true)
    (hspeaker : (parseSpeaker p).getD SpeakerTag.user = SpeakerTag.user)
    (hfinal : isFinalTranscript p = true) :
    (handleTranscriptMessage p s).incoming = none ∧
    (handleTranscriptMessage p s).scheduledAudio = [] ∧
    (handleTranscriptMessage p s).scheduledStart = 0 ∧
    (handleTranscriptMessage p s).chatMessages =
      s.chatMessages ++ [⟨s.nextId, .user, jsToString t, none, none⟩] ∧
    (handleTranscriptMessage p s).chatMessages.getLast? =
      some ⟨s.nextId, .user, jsToString t, none, none⟩ := by
  have hred : handleTranscriptMessage p s =
      { s with currentSpeaker := some SpeakerTag.user,
               scheduledAudio := [], scheduledStart := 0,
               incoming := none,
               chatMessages := s.chatMessages ++
                 [⟨s.nextId, .user, jsToString t, none, none⟩],
               nextId := s.nextId + 1 } := by
    simp only [handleTranscriptMessage, htext, htruthy, Bool.not_true,
      Bool.false_eq_true, if_false, hspeaker, hfinal, clearScheduledAudio,
      decide_True, Bool.and_self, if_true]
  rw [hred]
  refine ⟨rfl, rfl, rfl, rfl, List.getLast?_concat _⟩

/-- Initial state of the C8 witness: one open model message and one
scheduled audio segment. -/
def c8state : AggState :=
  { connection := true, voice := "aura",
    currentSpeaker := some SpeakerTag.model, microphoneOpen := true,
    chatMessages := [⟨0, .model, "hi", none, some "aura"⟩],
    incoming := some ⟨0, .model, "hi", none, some "aura"⟩,
    scheduledAudio := [[1, 2]], scheduledStart := 5, nextId := 1 }

/-- Payload of the C8 witness: a final user transcript. -/
def c8payload : Json :=
  .obj [("type", .str "transcript"), ("transcript", .str "stop"),
        ("speaker", .str "user"), ("is_final", .bool true)]

/-- Witness for C8 at a concrete state and payload. -/
theorem c8_barge_in_witness :
    (handleTranscriptMessage c8payload c8state).incoming = none ∧
    (handleTranscriptMessage c8payload c8state).scheduledAudio = [] ∧
    (handleTranscriptMessage c8payload c8state).scheduledStart = 0 ∧
    (handleTranscriptMessage c8payload c8state).chatMessages =
      c8state.chatMessages ++
        [⟨c8state.nextId, .user, jsToString (.str "stop"), none, none⟩] ∧
    (handleTranscriptMessage c8payload c8state).chatMessages.getLast? =
      some ⟨c8state.nextId, .user, jsToString (.str "stop"), none, none⟩ :=
  c8_barge_in c8payload c8state (.str "stop") rfl
    (by intro h; exact absurd (congrArg List.length h) (by decide))
    rfl rfl rfl rfl

/-! ## Whitespace-normalization development for the text-joining claim -/

/-- First character exists and is not whitespace. -/
def headNotWs (l : List Char) : Bool :=
  match l.head? with
  | some c => !isWsChar c
  | none => false

/-- Last character exists and is not whitespace. -/
def lastNotWs (l : List Char) : Bool :=
  match l.getLast? with
  | some c => !isWsChar c
  | none => false

/-- No two adjacent whitespace characters. -/
def noWsPair : List Char → Bool
  | [] => true
  | [_] => true
  | a :: b :: rest => !(isWsChar a && isWsChar b) && noWsPair (b :: rest)

/-- Every whitespace character is a plain space. -/
def wsAllSpace (l : List Char) : Bool :=
  l.all (fun c => !isWsChar c || c == ' ')

/-- A string already in the normal form the claim describes: non-empty,
no leading or trailing whitespace, no runs of consecutive whitespace,
and all whitespace is the single space character. -/
def normTextB (s : String) : Bool :=
  headNotWs s.data && lastNotWs s.data && noWsPair s.data && wsAllSpace s.data

/-- The single-space join of a delta sequence ("the delta texts joined
with a single intervening space"). -/
def joinSp : List String → String
  | [] => ""
  | t :: rest => rest.foldl (fun a b => a ++ " " ++ b) t

lemma noWsPair_tail (c : Char) (rest : List Char)
    (h : noWsPair (c :: rest) = true) : noWsPair rest = true := by
  cases rest with
  | nil => rfl
  | cons d ds =>
    simp only [noWsPair, Bool.and_eq_true] at h
    exact h.2

lemma collapseAux_id (l : List Char) :
    wsAllSpace l = true → noWsPair l = true →
    (collapseAux false l = l ∧
      ((l = [] ∨ headNotWs l = true) → collapseAux true l = l)) := by
  induction l with
  | nil => intro _ _; exact ⟨rfl, fun _ => rfl⟩
  | cons c rest ih =>
    intro hall hadj
    have hall' : wsAllSpace rest = true := by
      simp only [wsAllSpace, List.all_cons, Bool.and_eq_true] at hall
      exact hall.2
    have hadj' : noWsPair rest = true := noWsPair_tail c rest hadj
    obtain ⟨ih1, ih2⟩ := ih hall' hadj'
    by_cases hw : isWsChar c = true
    · have hc : c = ' ' := by
        simp only [wsAllSpace, List.all_cons, Bool.and_eq_true, Bool.or_eq_true,
          Bool.not_eq_true'] at hall
        rcases hall.1 with h | h
        · rw [hw] at h; exact absurd h (by simp)
        · exact eq_of_beq h
      have hrest : rest = [] ∨ headNotWs rest = true := by
        cases rest with
        | nil => exact Or.inl rfl
        | cons d ds =>
          right
          simp only [noWsPair, hw, Bool.true_and, Bool.and_eq_true,
            Bool.not_eq_true'] at hadj
          simp [headNotWs, hadj.1]
      refine ⟨?_, ?_⟩
      · simp only [collapseAux, hw, if_true, Bool.false_eq_true, if_false]
        rw [ih2 hrest, hc]
      · rintro (hh | hh)
        · exact absurd hh (by simp)
        · simp [headNotWs, hw] at hh
    · refine ⟨?_, ?_⟩ <;>
      · intros
        simp only [collapseAux, hw]
        simp [ih1]

lemma trimChars_id (l : List Char) (h1 : headNotWs l = true)
    (h2 : lastNotWs l = true) : trimChars l = l := by
  unfold trimChars
  have hd : l.dropWhile isWsChar = l := by
    cases l with
    | nil => rfl
    | cons c rest =>
      simp only [headNotWs, List.head?_cons, Bool.not_eq_true'] at h1
      rw [List.dropWhile_cons, h1]
      simp
  rw [hd]
  have hr : l.reverse.dropWhile isWsChar = l.reverse := by
    cases hrev : l.reverse with
    | nil => rfl
    | cons d ds =>
      have : l.getLast? = some d := by
        rw [← List.head?_reverse, hrev, List.head?_cons]
      simp only [lastNotWs, this, Bool.not_eq_true'] at h2
      rw [List.dropWhile_cons, h2]
      simp
  rw [hr, List.reverse_reverse]

lemma noWsPair_append (la lb : List Char) :
    noWsPair la = true → lastNotWs la = true → headNotWs lb = true →
    noWsPair lb = true → noWsPair (la ++ ' ' :: lb) = true := by
  induction la with
  | nil =>
    intro _ hlast _ _
    simp [lastNotWs] at hlast
  | cons x rest ih =>
    intro hla hlast hhead hlb
    cases rest with
    | nil =>
      have hx : isWsChar x = false := by
        simpa [lastNotWs, Bool.not_eq_true'] using hlast
      show noWsPair (x :: ' ' :: lb) = true
      have hsp : noWsPair (' ' :: lb) = true := by
        cases lb with
        | nil => rfl
        | cons d ds =>
          have hd : isWsChar d = false := by
            simpa [headNotWs, Bool.not_eq_true'] using hhead
          simp [noWsPair, hd, hlb]
      simp [noWsPair, hx, hsp]
    | cons y rest' =>
      have h1 : (!(isWsChar x && isWsChar y)) = true := by
        simp only [noWsPair, Bool.and_eq_true] at hla
        exact hla.1
      have hlast' : lastNotWs (y :: rest') = true := by
        simpa [lastNotWs, List.getLast?_cons_cons] using hlast
      have htail := ih (noWsPair_tail x _ hla) hlast' hhead hlb
      show noWsPair (x :: y :: (rest' ++ ' ' :: lb)) = true
      simp only [noWsPair, Bool.and_eq_true]
      exact ⟨by simpa using h1, htail⟩

lemma norm_append (a b : String) (ha : normTextB a = true)
    (hb : normTextB b = true) : normTextB (a ++ " " ++ b) = true := by
  obtain ⟨⟨⟨ha1, ha2⟩, ha3⟩, ha4⟩ := by
    simpa only [normTextB, Bool.and_eq_true] using ha
  obtain ⟨⟨⟨hb1, hb2⟩, hb3⟩, hb4⟩ := by
    simpa only [normTextB, Bool.and_eq_true] using hb
  have hdata : (a ++ " " ++ b).data = a.data ++ ' ' :: b.data := by
    show (a.data ++ [' ']) ++ b.data = a.data ++ ' ' :: b.data
    simp
  simp only [normTextB, hdata, Bool.and_eq_true]
  refine ⟨⟨⟨?_, ?_⟩, ?_⟩, ?_⟩
  · cases hh : a.data.head? with
    | none => simp [headNotWs, hh] at ha1
    | some c =>
      simp only [headNotWs, hh] at ha1
      simp [headNotWs, List.head?_append, hh, ha1]
  · cases hh : b.data.getLast? with
    | none => simp [lastNotWs, hh] at hb2
    | some c =>
      simp only [lastNotWs, hh] at hb2
      have : (a.data ++ ' ' :: b.data).getLast? = some c := by
        rw [List.getLast?_append]
        simp [List.getLast?_cons, hh]
      simp [lastNotWs, this, hb2]
  · exact noWsPair_append a.data b.data ha3 ha2 hb1 hb3
  · simp only [wsAllSpace, List.all_append, List.all_cons, Bool.and_eq_true]
    exact ⟨by simpa [wsAllSpace] using ha4,
      by simp, by simpa [wsAllSpace] using hb4⟩

lemma normTextB_ne_empty (a : String) (ha : normTextB a = true) : a ≠ "" := by
  intro h
  subst h
  simp [normTextB, headNotWs] at ha

lemma combine_id (a b : String) (ha : normTextB a = true)
    (hb : normTextB b = true) :
    combineTranscriptText a b = a ++ " " ++ b ∧
    combineAgentText a b = a ++ " " ++ b := by
  have hane : a ≠ "" := normTextB_ne_empty a ha
  have hcomb := norm_append a b ha hb
  obtain ⟨⟨⟨h1, h2⟩, h3⟩, h4⟩ := by
    simpa only [normTextB, Bool.and_eq_true] using hcomb
  have htrim : jsTrim (a ++ " " ++ b) = a ++ " " ++ b := by
    show (⟨trimChars (a ++ " " ++ b).data⟩ : String) = a ++ " " ++ b
    rw [trimChars_id _ h1 h2]
  have hcoll : jsCollapseWs (a ++ " " ++ b) = a ++ " " ++ b := by
    show (⟨collapseAux false (a ++ " " ++ b).data⟩ : String) = a ++ " " ++ b
    rw [(collapseAux_id _ h4 h3).1]
  constructor
  · unfold combineTranscriptText
    rw [if_pos hane, hcoll, htrim]
  · unfold combineAgentText
    rw [if_pos hane, htrim]

lemma foldl_combine (ts : List String) :
    ∀ acc, normTextB acc = true → (∀ t ∈ ts, normTextB t = true) →
      ts.foldl combineTranscriptText acc =
        ts.foldl (fun a b => a ++ " " ++ b) acc ∧
      ts.foldl combineAgentText acc =
        ts.foldl (fun a b => a ++ " " ++ b) acc ∧
      normTextB (ts.foldl (fun a b => a ++ " " ++ b) acc) = true := by
  induction ts with
  | nil => intro acc ha _; exact ⟨rfl, rfl, ha⟩
  | cons t rest ih =>
    intro acc ha hts
    have hT : normTextB t = true := hts t (List.mem_cons_self ..)
    have hrest : ∀ t' ∈ rest, normTextB t' = true :=
      fun t' h => hts t' (List.mem_cons_of_mem _ h)
    obtain ⟨hct, hca⟩ := combine_id acc t ha hT
    have hacc' : normTextB (acc ++ " " ++ t) = true := norm_append acc t ha hT
    obtain ⟨e1, e2, e3⟩ := ih (acc ++ " " ++ t) hacc' hrest
    refine ⟨?_, ?_, ?_⟩
    · simpa only [List.foldl_cons, hct] using e1
    · simpa only [List.foldl_cons, hca] using e2
    · simpa only [List.foldl_cons] using e3

/-- C7 (amended): provided every delta text is itself already
whitespace-normal (non-empty, no leading/trailing whitespace, no runs of
consecutive whitespace, all whitespace a single space), folding the
deltas into a fresh open message through either content-combination path
(transcript handling or agent-response handling) yields exactly the
delta texts joined with a single intervening space, and the result is
again whitespace-normal (no leading/trailing whitespace, no internal
runs).  Without that proviso the paths differ from the claim: see the
counterexample. -/
theorem c7_text_joining (ts : List String) (hne : ts ≠ [])
    (hnorm : ∀ t ∈ ts, normTextB t = true) :
    ts.foldl combineTranscriptText "" = joinSp ts ∧
    ts.foldl combineAgentText "" = joinSp ts ∧
    normTextB (joinSp ts) = true := by
  cases ts with
  | nil => exact absurd rfl hne
  | cons t rest =>
    have hT : normTextB t = true := hnorm t (List.mem_cons_self ..)
    have hrest : ∀ t' ∈ rest, normTextB t' = true :=
      fun t' h => hnorm t' (List.mem_cons_of_mem _ h)
    have hstep : combineTranscriptText "" t = t := by
      unfold combineTranscriptText
      simp
    have hstep' : combineAgentText "" t = t := by
      unfold combineAgentText
      simp
    obtain ⟨e1, e2, e3⟩ := foldl_combine rest t hT hrest
    refine ⟨?_, ?_, e3⟩
    · simpa only [List.foldl_cons, hstep, joinSp] using e1
    · simpa only [List.foldl_cons, hstep', joinSp] using e2

/-- A transcript payload whose text contains an internal double space. -/
def c7payload : Json :=
  .obj [("type", .str "transcript"), ("text", .str "a  b"),
        ("speaker", .str "agent")]

/-- An empty aggregator state. -/
def aggInit : AggState :=
  ⟨true, "aura", none, false, [], none, [], 0, 0⟩

/-- Counterexample to C7 as stated: a single transcript delta `"a  b"`
is stored verbatim (internal run not normalized), and on the
agent-response path even a two-delta fold keeps the internal run, so the
content does not equal the normalized join. -/
theorem c7_counterexample :
    ((handleTranscriptMessage c7payload aggInit).chatMessages.map
      Message.content) = ["a  b"] ∧
    ["a", "b  c"].foldl combineAgentText "" = "a b  c" ∧
    "a  b" ≠ "a b" ∧ "a b  c" ≠ "a b c" :=
  ⟨rfl, rfl, by decide, by decide⟩

/-- Witness for C7 at a concrete delta sequence. -/
theorem c7_text_joining_witness :
    ["Hi", "there"].foldl combineTranscriptText "" = joinSp ["Hi", "there"] ∧
    ["Hi", "there"].foldl combineAgentText "" = joinSp ["Hi", "there"] ∧
    normTextB (joinSp ["Hi", "there"]) = true :=
  c7_text_joining ["Hi", "there"] (by decide) (by decide)

/-! ## Base64 roundtrip development for the audio-encoding claim -/

lemma b64_enc_val : ∀ n, n < 64 → b64CharVal (b64EncCharOf n) = some n := by
  decide

lemma b64_enc_not_ws : ∀ n, n < 64 → isWsChar (b64EncCharOf n) = false := by
  decide

lemma b64_enc_ne_eq : ∀ n, n < 64 → b64EncCharOf n ≠ '=' := by
  decide

lemma encode_no_ws (bs : List Nat) :
    (∀ x ∈ bs, x < 256) → ∀ c ∈ base64EncodeChars bs, isWsChar c = false := by
  induction bs using base64EncodeChars.induct with
  | case1 =>
    intro _ c hc
    simp [base64EncodeChars] at hc
  | case2 x =>
    intro hb c hc
    have hx : x < 256 := hb x (by simp)
    simp only [base64EncodeChars, List.mem_cons, List.not_mem_nil,
      or_false] at hc
    rcases hc with h | h | h | h <;> subst h
    · exact b64_enc_not_ws _ (by omega)
    · exact b64_enc_not_ws _ (by omega)
    · rfl
    · rfl
  | case3 x y =>
    intro hb c hc
    have hx : x < 256 := hb x (by simp)
    have hy : y < 256 := hb y (by simp)
    simp only [base64EncodeChars, List.mem_cons, List.not_mem_nil,
      or_false] at hc
    rcases hc with h | h | h | h <;> subst h
    · exact b64_enc_not_ws _ (by omega)
    · exact b64_enc_not_ws _ (by omega)
    · exact b64_enc_not_ws _ (by omega)
    · rfl
  | case4 x y z rest ih =>
    intro hb c hc
    have hx : x < 256 := hb x (by simp)
    have hy : y < 256 := hb y (by simp)
    have hz : z < 256 := hb z (by simp)
    simp only [base64EncodeChars, List.cons_append, List.nil_append,
      List.mem_cons] at hc
    rcases hc with h | h | h | h | h
    · subst h; exact b64_enc_not_ws _ (by omega)
    · subst h; exact b64_enc_not_ws _ (by omega)
    · subst h; exact b64_enc_not_ws _ (by omega)
    · subst h; exact b64_enc_not_ws _ (by omega)
    · exact ih (fun w hw => hb w (by simp [hw])) c h

lemma encode_len_mod (bs : List Nat) :
    (base64EncodeChars bs).length % 4 = 0 := by
  induction bs using base64EncodeChars.induct with
  | case1 => rfl
  | case2 x => simp [base64EncodeChars]
  | case3 x y => simp [base64EncodeChars]
  | case4 x y z rest ih =>
    simp only [base64EncodeChars, List.cons_append, List.nil_append,
      List.length_cons]
    omega

lemma encode_len_ge (bs : List Nat) (h : bs ≠ []) :
    4 ≤ (base64EncodeChars bs).length := by
  cases bs with
  | nil => exact absurd rfl h
  | cons x rest =>
    cases rest with
    | nil => simp [base64EncodeChars]
    | cons y rest' =>
      cases rest' with
      | nil => simp [base64EncodeChars]
      | cons z rest'' =>
        simp [base64EncodeChars]

lemma dropTwoEq_append (l₁ l₂ : List Char) (h : 2 ≤ l₂.length) :
    dropTwoEq (l₁ ++ l₂) = l₁ ++ dropTwoEq l₂ := by
  match hrev : l₂.reverse with
  | [] =>
    have : l₂.length = 0 := by
      simpa using congrArg List.length hrev
    omega
  | [a] =>
    have : l₂.length = 1 := by
      simpa using congrArg List.length hrev
    omega
  | a :: b :: t =>
    have h12 : (l₁ ++ l₂).reverse = a :: b :: (t ++ l₁.reverse) := by
      rw [List.reverse_append, hrev]
      simp
    unfold dropTwoEq
    rw [h12, hrev]
    by_cases ha : a = '='
    · subst ha
      by_cases hbq : b = '='
      · subst hbq
        simp [List.reverse_append]
      · simp [hbq, List.reverse_append]
    · simp [ha]

lemma mapSextets_append (l₁ l₂ : List Char) :
    mapSextets (l₁ ++ l₂) =
      match mapSextets l₁, mapSextets l₂ with
      | some a, some b => some (a ++ b)
      | _, _ => none := by
  induction l₁ with
  | nil =>
    cases h : mapSextets l₂ <;> simp [mapSextets, h]
  | cons c rest ih =>
    simp only [List.cons_append, mapSextets]
    cases hc : b64CharVal c with
    | none => simp
    | some v =>
      simp only [List.append_eq]
      rw [ih]
      cases h1 : mapSextets rest <;> cases h2 : mapSextets l₂ <;> simp

lemma atob_encode (bs : List Nat) :
    (∀ x ∈ bs, x < 256) → atobDecode (base64EncodeChars bs) = some bs := by
  induction bs using base64EncodeChars.induct with
  | case1 => intro _; rfl
  | case2 x =>
    intro hb
    have hx : x < 256 := hb x (by simp)
    have h1 : x / 4 < 64 := by omega
    have h2 : x % 4 * 16 < 64 := by omega
    have hstrip : dropTwoEq [b64EncCharOf (x/4), b64EncCharOf (x%4*16),
        '=', '='] = [b64EncCharOf (x/4), b64EncCharOf (x%4*16)] := by
      simp [dropTwoEq]
    have hmap : mapSextets [b64EncCharOf (x/4), b64EncCharOf (x%4*16)] =
        some [x/4, x%4*16] := by
      simp [mapSextets, b64_enc_val _ h1, b64_enc_val _ h2]
    show atobDecode [b64EncCharOf (x/4), b64EncCharOf (x%4*16), '=', '='] =
      some [x]
    simp only [atobDecode, List.length_cons, List.length_nil]
    norm_num
    rw [hstrip]
    simp only [List.length_cons, List.length_nil]
    norm_num
    rw [hmap]
    simp only [sextetsToBytes]
    have : x / 4 * 4 + x % 4 * 16 / 16 = x := by omega
    rw [this]
  | case3 x y =>
    intro hb
    have hx : x < 256 := hb x (by simp)
    have hy : y < 256 := hb y (by simp)
    have h1 : x / 4 < 64 := by omega
    have h2 : x % 4 * 16 + y / 16 < 64 := by omega
    have h3 : y % 16 * 4 < 64 := by omega
    have hstrip : dropTwoEq [b64EncCharOf (x/4), b64EncCharOf (x%4*16 + y/16),
        b64EncCharOf (y%16*4), '='] =
        [b64EncCharOf (x/4), b64EncCharOf (x%4*16 + y/16),
         b64EncCharOf (y%16*4)] := by
      simp [dropTwoEq, b64_enc_ne_eq _ h3]
    have hmap : mapSextets [b64EncCharOf (x/4), b64EncCharOf (x%4*16 + y/16),
        b64EncCharOf (y%16*4)] = some [x/4, x%4*16 + y/16, y%16*4] := by
      simp [mapSextets, b64_enc_val _ h1, b64_enc_val _ h2, b64_enc_val _ h3]
    show atobDecode [b64EncCharOf (x/4), b64EncCharOf (x%4*16 + y/16),
        b64EncCharOf (y%16*4), '='] = some [x, y]
    simp only [atobDecode, List.length_cons, List.length_nil]
    norm_num
    rw [hstrip]
    simp only [List.length_cons, List.length_nil]
    norm_num
    rw [hmap]
    simp only [sextetsToBytes]
    have e1 : x / 4 * 4 + (x % 4 * 16 + y / 16) / 16 = x := by omega
    have e2 : (x % 4 * 16 + y / 16) % 16 * 16 + y % 16 * 4 / 4 = y := by omega
    rw [e1, e2]
  | case4 x y z rest ihp =>
    intro hb
    have hx : x < 256 := hb x (by simp)
    have hy : y < 256 := hb y (by simp)
    have hz : z < 256 := hb z (by simp)
    have ih : atobDecode (base64EncodeChars rest) = some rest :=
      ihp (fun w hw => hb w (by simp [hw]))
    have h1 : x / 4 < 64 := by omega
    have h2 : x % 4 * 16 + y / 16 < 64 := by omega
    have h3 : y % 16 * 4 + z / 64 < 64 := by omega
    have h4 : z % 64 < 64 := by omega
    have hmap4 : mapSextets [b64EncCharOf (x/4), b64EncCharOf (x%4*16 + y/16),
        b64EncCharOf (y%16*4 + z/64), b64EncCharOf (z%64)] =
        some [x/4, x%4*16 + y/16, y%16*4 + z/64, z%64] := by
      simp [mapSextets, b64_enc_val _ h1, b64_enc_val _ h2, b64_enc_val _ h3,
        b64_enc_val _ h4]
    have e1 : x / 4 * 4 + (x % 4 * 16 + y / 16) / 16 = x := by omega
    have e2 : (x % 4 * 16 + y / 16) % 16 * 16 +
        (y % 16 * 4 + z / 64) / 4 = y := by omega
    have e3 : (y % 16 * 4 + z / 64) % 4 * 64 + z % 64 = z := by omega
    by_cases hre : rest = []
    · subst hre
      show atobDecode [b64EncCharOf (x/4), b64EncCharOf (x%4*16 + y/16),
          b64EncCharOf (y%16*4 + z/64), b64EncCharOf (z%64)] = some [x, y, z]
      have hstrip : dropTwoEq [b64EncCharOf (x/4), b64EncCharOf (x%4*16 + y/16),
          b64EncCharOf (y%16*4 + z/64), b64EncCharOf (z%64)] =
          [b64EncCharOf (x/4), b64EncCharOf (x%4*16 + y/16),
           b64EncCharOf (y%16*4 + z/64), b64EncCharOf (z%64)] := by
        simp [dropTwoEq, b64_enc_ne_eq _ h4]
      simp only [atobDecode, List.length_cons, List.length_nil]
      norm_num
      rw [hstrip]
      simp only [List.length_cons, List.length_nil]
      norm_num
      rw [hmap4]
      simp only [sextetsToBytes]
      rw [e1, e2, e3]
      simp
    · set c1 := b64EncCharOf (x/4)
      set c2 := b64EncCharOf (x%4*16 + y/16)
      set c3 := b64EncCharOf (y%16*4 + z/64)
      set c4 := b64EncCharOf (z%64)
      set E := base64EncodeChars rest with hE
      have hEmod : E.length % 4 = 0 := encode_len_mod rest
      have hE2 : 2 ≤ E.length := le_trans (by norm_num) (encode_len_ge rest hre)
      have hchars : base64EncodeChars (x :: y :: z :: rest) =
          [c1, c2, c3, c4] ++ E := by
        simp [base64EncodeChars, hE]
      rw [hchars]
      simp only [atobDecode, hEmod] at ih
      norm_num at ih
      obtain ⟨hmod, ih⟩ := ih
      cases hms : mapSextets (dropTwoEq E) with
        | none => rw [hms] at ih; simp at ih
        | some sE =>
          rw [hms] at ih
          have ih' : sextetsToBytes sE = some rest := ih
          have hgl : ([c1, c2, c3, c4] ++ E).length % 4 = 0 := by
            simp only [List.length_append, List.length_cons, List.length_nil]
            omega
          simp only [atobDecode, hgl]
          norm_num
          rw [show (c1 :: c2 :: c3 :: c4 :: E) = [c1, c2, c3, c4] ++ E from rfl,
            dropTwoEq_append _ _ hE2]
          refine ⟨?_, ?_⟩
          · simp only [List.length_append, List.length_cons, List.length_nil]
            omega
          · rw [show ([c1, c2, c3, c4] ++ dropTwoEq E) =
              ([c1, c2, c3, c4] : List Char) ++ dropTwoEq E from rfl,
              mapSextets_append, hmap4, hms]
            show sextetsToBytes
              ([x/4, x%4*16 + y/16, y%16*4 + z/64, z%64] ++ sE) =
              some (x :: y :: z :: rest)
            rw [show ([x/4, x%4*16 + y/16, y%16*4 + z/64, z%64] ++ sE) =
              x/4 :: (x%4*16 + y/16) :: (y%16*4 + z/64) :: z%64 :: sE from
              by simp]
            simp only [sextetsToBytes]
            rw [ih']
            simp only [List.cons_append, List.nil_append]
            rw [e1, e2, e3]

/-- The decoder of the source inverts standard base64 encoding. -/
lemma decodeBase64_encode (bs : List Nat) (hb : ∀ x ∈ bs, x < 256) :
    decodeBase64 (base64Encode bs) = some bs := by
  have hdata : (base64Encode bs).data = base64EncodeChars bs := rfl
  have hfil : (base64Encode bs).data.filter (fun c => !isWsChar c) =
      base64EncodeChars bs := by
    rw [hdata]
    rw [List.filter_eq_self]
    intro a ha
    simp [encode_no_ws bs hb a ha]
  unfold decodeBase64
  rw [hfil]
  exact atob_encode bs hb

/-- The numeric-byte-array wire shape of a byte list. -/
def natsToJsonNums (b : List Nat) : List Json :=
  b.map (fun (n : Nat) => Json.num ((n : Int)))

/-- C3 (amended): for every NON-EMPTY byte sequence `b` (bytes < 256),
a response sub-object carrying `b` in any of the four encodings — raw
buffer, base64 string, numeric byte array, wrapped Buffer object — has
the same decoded audio bytes `b` extracted.  For the empty sequence the
encodings disagree: see the counterexample. -/
theorem c3_encoding_agreement (b : List Nat) (hb : ∀ x ∈ b, x < 256)
    (hne : b ≠ []) :
    audioFromResponse (.obj [("audio", .bytes b)]) = some b ∧
    audioFromResponse (.obj [("audio", .str (base64Encode b))]) = some b ∧
    audioFromResponse (.obj [("audio", .arr (natsToJsonNums b))]) = some b ∧
    audioFromResponse (.obj [("audio",
      .obj [("type", .str "Buffer"),
            ("data", .arr (natsToJsonNums b))])]) = some b := by
  have hmapu : (natsToJsonNums b).map toUint8 = b := by
    unfold natsToJsonNums
    rw [List.map_map]
    have hpt : ∀ n ∈ b, (toUint8 ∘ (fun n : Nat => Json.num (n : Int))) n
        = id n := by
      intro n hn
      have h256 := hb n hn
      simp only [Function.comp_apply, toUint8, id_eq]
      omega
    rw [List.map_congr_left hpt, List.map_id]
  have hsne : base64Encode b ≠ "" := by
    intro h
    have h4 : 4 ≤ (base64EncodeChars b).length := encode_len_ge b hne
    have hc : base64EncodeChars b = [] := by
      have hd : (base64Encode b).data = ("" : String).data := by rw [h]
      simpa using hd.symm
    rw [hc] at h4
    simp at h4
  refine ⟨?_, ?_, ?_, ?_⟩
  · rfl
  · have htr : Json.truthy (.str (base64Encode b)) = true := by
      simp [Json.truthy, bne_iff_ne, hsne]
    have hred : audioFromResponse (.obj [("audio", .str (base64Encode b))]) =
        decodeBase64 (base64Encode b) := by
      simp only [audioFromResponse, Json.getField, Json.coalesce,
        List.find?_cons]
      norm_num [htr]
    rw [hred]
    exact decodeBase64_encode b hb
  · have hred : audioFromResponse (.obj
        [("audio", .arr (natsToJsonNums b))]) =
        some ((natsToJsonNums b).map toUint8) := rfl
    rw [hred, hmapu]
  · have hred : audioFromResponse (.obj [("audio",
        .obj [("type", .str "Buffer"),
              ("data", .arr (natsToJsonNums b))])]) =
        some ((natsToJsonNums b).map toUint8) := rfl
    rw [hred, hmapu]

/-- Counterexample to C3 as stated: the empty byte sequence base64-encodes
to the empty string, which is falsy, so the base64 encoding yields no
audio while the raw-buffer and numeric-array encodings yield empty
audio. -/
theorem c3_counterexample :
    base64Encode [] = "" ∧
    audioFromResponse (.obj [("audio", .str (base64Encode []))]) = none ∧
    audioFromResponse (.obj [("audio", .bytes ([] : List Nat))]) = some [] ∧
    audioFromResponse (.obj [("audio", .arr ([] : List Json))]) = some [] :=
  ⟨rfl, rfl, rfl, rfl⟩

/-- Witness for C3 at the concrete bytes `[1, 2, 3]`. -/
theorem c3_encoding_agreement_witness :
    audioFromResponse (.obj [("audio", .bytes [1, 2, 3])]) = some [1, 2, 3] ∧
    audioFromResponse (.obj [("audio", .str (base64Encode [1, 2, 3]))]) =
      some [1, 2, 3] ∧
    audioFromResponse (.obj [("audio", .arr (natsToJsonNums [1, 2, 3]))]) =
      some [1, 2, 3] ∧
    audioFromResponse (.obj [("audio",
      .obj [("type", .str "Buffer"),
            ("data", .arr (natsToJsonNums [1, 2, 3]))])]) =
      some [1, 2, 3] :=
  c3_encoding_agreement [1, 2, 3] (by decide) (by decide)

/-! ## Aggregator invariant development -/

/-- The aggregator invariant of the claim: the single open message slot
(at most one open message holds by the `Option` representation itself)
contains, when occupied, a model-role message that is the last element
of the conversation; message ids in the conversation are pairwise
distinct and below the fresh-id counter. -/
def OpenInv (s : AggState) : Prop :=
  (∀ m, s.incoming = some m →
     m.role = Role.model ∧ s.chatMessages.getLast? = some m) ∧
  (s.chatMessages.map Message.id).Nodup ∧
  (∀ m ∈ s.chatMessages, m.id < s.nextId)

/-- The fresh model message `ensureIncomingMessage` opens. -/
def freshModelMsg (s : AggState) : Message :=
  ⟨s.nextId, .model, "", none, some s.voice⟩

lemma ensure_none_eq (s : AggState) (hi : s.incoming = none) :
    ensureIncomingMessage s =
      { s with incoming := some (freshModelMsg s),
               chatMessages := s.chatMessages ++ [freshModelMsg s],
               nextId := s.nextId + 1 } := by
  unfold ensureIncomingMessage
  rw [hi]
  rfl

lemma ensure_some_eq (s : AggState) (m : Message) (hi : s.incoming = some m) :
    ensureIncomingMessage s = s := by
  unfold ensureIncomingMessage
  rw [hi]

lemma update_some_eq (u : MessageUpdates) (s : AggState) (m : Message)
    (hi : s.incoming = some m) :
    updateIncomingMessage u s =
      { s with incoming := some (applyUpdates m u),
               chatMessages := s.chatMessages.map (fun item =>
                 if item.id = (applyUpdates m u).id then applyUpdates m u
                 else item) } := by
  unfold updateIncomingMessage
  simp only [hi]

lemma update_none_eq (u : MessageUpdates) (s : AggState)
    (hi : s.incoming = none) :
    updateIncomingMessage u s =
      updateIncomingMessage u (ensureIncomingMessage s) := by
  unfold updateIncomingMessage
  rw [hi]
  rw [show (match (ensureIncomingMessage s).incoming with
    | none => ensureIncomingMessage (ensureIncomingMessage s)
    | some _ => ensureIncomingMessage s) = ensureIncomingMessage s from by
    rw [ensure_none_eq s hi]]

lemma finalize_some_eq (s : AggState) (m : Message)
    (hi : s.incoming = some m) :
    finalizeIncomingMessage s =
      { s with chatMessages := s.chatMessages.map (fun item =>
                 if item.id = m.id then m else item),
               incoming := none,
               currentSpeaker := some .userWaiting } := by
  unfold finalizeIncomingMessage
  rw [hi]

lemma finalize_none_eq (s : AggState) (hi : s.incoming = none) :
    finalizeIncomingMessage s = s := by
  unfold finalizeIncomingMessage
  rw [hi]

lemma applyUpdates_id (m : Message) (u : MessageUpdates) :
    (applyUpdates m u).id = m.id := rfl

lemma applyUpdates_role (m : Message) (u : MessageUpdates) :
    (applyUpdates m u).role = m.role := rfl

lemma ids_map_replace (l : List Message) (m' : Message) :
    (l.map (fun item => if item.id = m'.id then m' else item)).map
      Message.id = l.map Message.id := by
  rw [List.map_map]
  apply List.map_congr_left
  intro x hx
  by_cases h : x.id = m'.id <;> simp [h]

lemma mem_map_replace (l : List Message) (m' x : Message) (hx : x ∈ l)
    (h : x.id ≠ m'.id) :
    x ∈ l.map (fun item => if item.id = m'.id then m' else item) := by
  have : (fun item => if item.id = m'.id then m' else item) x = x := by
    simp [h]
  exact this ▸ List.mem_map_of_mem _ hx

lemma bound_map_replace (l : List Message) (m' : Message) (n : Nat)
    (hl : ∀ m ∈ l, m.id < n) (hm' : m'.id < n) :
    ∀ y ∈ l.map (fun item => if item.id = m'.id then m' else item),
      y.id < n := by
  intro y hy
  rcases List.mem_map.mp hy with ⟨x, hx, hxe⟩
  subst hxe
  by_cases h : x.id = m'.id <;> simp [h, hl x hx, hm']

lemma ensure_pres (s : AggState) (h : OpenInv s) :
    OpenInv (ensureIncomingMessage s) := by
  obtain ⟨h1, h2, h3⟩ := h
  cases hi : s.incoming with
  | some m => rw [ensure_some_eq s m hi]; exact ⟨h1, h2, h3⟩
  | none =>
    rw [ensure_none_eq s hi]
    refine ⟨?_, ?_, ?_⟩
    · intro m hm
      have hm' : m = freshModelMsg s := by
        simpa using hm.symm
      subst hm'
      exact ⟨rfl, by simp [List.getLast?_concat]⟩
    · show ((s.chatMessages ++ [freshModelMsg s]).map Message.id).Nodup
      rw [List.map_append, List.nodup_append]
      refine ⟨h2, by simp, ?_⟩
      intro a ha hb
      rcases List.mem_map.mp ha with ⟨x, hx, hxe⟩
      subst hxe
      have := h3 x hx
      simp only [List.map_cons, List.map_nil, List.mem_singleton] at hb
      show False
      rw [show (freshModelMsg s).id = s.nextId from rfl] at hb
      omega
    · intro m hm
      rcases List.mem_append.mp hm with hm | hm
      · exact lt_trans (h3 m hm) (Nat.lt_succ_self _)
      · simp only [List.mem_singleton] at hm
        subst hm
        exact Nat.lt_succ_self _

lemma update_pres_some (u : MessageUpdates) (s : AggState) (m : Message)
    (hi : s.incoming = some m) (h : OpenInv s) :
    OpenInv (updateIncomingMessage u s) := by
  obtain ⟨h1, h2, h3⟩ := h
  obtain ⟨hrole, hlast⟩ := h1 m hi
  have hmem : m ∈ s.chatMessages := List.mem_of_mem_getLast? hlast
  rw [update_some_eq u s m hi]
  refine ⟨?_, ?_, ?_⟩
  · intro m' hm'
    have hm'' : m' = applyUpdates m u := by simpa using hm'.symm
    subst hm''
    refine ⟨(applyUpdates_role m u).trans hrole, ?_⟩
    show (s.chatMessages.map _).getLast? = _
    rw [List.getLast?_map, hlast]
    simp [applyUpdates_id]
  · show ((s.chatMessages.map _).map Message.id).Nodup
    rw [ids_map_replace]
    exact h2
  · intro y hy
    exact bound_map_replace s.chatMessages (applyUpdates m u) s.nextId h3
      (by rw [applyUpdates_id]; exact h3 m hmem) y hy

lemma update_pres (u : MessageUpdates) (s : AggState) (h : OpenInv s) :
    OpenInv (updateIncomingMessage u s) := by
  cases hi : s.incoming with
  | some m => exact update_pres_some u s m hi h
  | none =>
    rw [update_none_eq u s hi]
    have he := ensure_pres s h
    have hei : (ensureIncomingMessage s).incoming = some (freshModelMsg s) := by
      rw [ensure_none_eq s hi]
    exact update_pres_some u _ _ hei he

lemma finalize_pres (s : AggState) (h : OpenInv s) :
    OpenInv (finalizeIncomingMessage s) := by
  obtain ⟨h1, h2, h3⟩ := h
  cases hi : s.incoming with
  | none => rw [finalize_none_eq s hi]; exact ⟨h1, h2, h3⟩
  | some m =>
    obtain ⟨hrole, hlast⟩ := h1 m hi
    have hmem : m ∈ s.chatMessages := List.mem_of_mem_getLast? hlast
    rw [finalize_some_eq s m hi]
    refine ⟨?_, ?_, ?_⟩
    · intro m' hm'
      exact absurd hm' (by simp)
    · show ((s.chatMessages.map _).map Message.id).Nodup
      rw [ids_map_replace]
      exact h2
    · intro y hy
      exact bound_map_replace s.chatMessages m s.nextId h3 (h3 m hmem) y hy

lemma clear_pres (s : AggState) (h : OpenInv s) :
    OpenInv (clearScheduledAudio s) := h

lemma playAudio_proj (ctx : Bool) (now : Nat) (d : List Nat) (s : AggState) :
    (playAudio ctx now d s).1.chatMessages = s.chatMessages ∧
    (playAudio ctx now d s).1.incoming = s.incoming ∧
    (playAudio ctx now d s).1.nextId = s.nextId := by
  unfold playAudio
  cases ctx with
  | false => simp
  | true =>
    by_cases ho : d.length % 2 = 1
    · simp [ho]
    · by_cases hs : d.length / 2 = 0 <;> simp [ho, hs]

lemma playAudio_pres (ctx : Bool) (now : Nat) (d : List Nat) (s : AggState)
    (h : OpenInv s) : OpenInv (playAudio ctx now d s).1 := by
  obtain ⟨e1, e2, e3⟩ := playAudio_proj ctx now d s
  unfold OpenInv at h ⊢
  rw [e1, e2, e3]
  exact h

lemma nodup_append_fresh (l : List Message) (msg : Message) (n : Nat)
    (h2 : (l.map Message.id).Nodup) (h3 : ∀ m ∈ l, m.id < n)
    (hid : msg.id = n) :
    ((l ++ [msg]).map Message.id).Nodup ∧
    (∀ m ∈ l ++ [msg], m.id < n + 1) := by
  constructor
  · rw [List.map_append, List.nodup_append]
    refine ⟨h2, by simp, ?_⟩
    intro a ha hb
    rcases List.mem_map.mp ha with ⟨x, hx, hxe⟩
    subst hxe
    have := h3 x hx
    simp only [List.map_cons, List.map_nil, List.mem_singleton] at hb
    show False
    omega
  · intro m hm
    rcases List.mem_append.mp hm with hm | hm
    · exact lt_trans (h3 m hm) (Nat.lt_succ_self _)
    · simp only [List.mem_singleton] at hm
      subst hm
      omega

lemma stepText_pres (r : Json) (s : AggState) (h : OpenInv s) :
    OpenInv (stepText r s) := by
  unfold stepText
  split
  · split
    · split
      · exact update_pres _ _ (ensure_pres _ h)
      · exact h
    · exact h
  · exact h

lemma stepAudio_pres (ctx : Bool) (now : Nat) (r : Json) (s : AggState)
    (h : OpenInv s) : OpenInv (stepAudio ctx now r s).1 := by
  unfold stepAudio
  split
  · exact playAudio_pres _ _ _ _ (update_pres _ _ (ensure_pres _ h))
  · exact h

lemma step_pres (ctx : Bool) (now : Nat) (s : AggState) (r : Json)
    (h : OpenInv s) : OpenInv (agentResponseStep ctx now s r).1 := by
  unfold agentResponseStep
  split
  · exact h
  · dsimp only
    split
    · exact stepAudio_pres ctx now r _ (stepText_pres r s h)
    · dsimp only
      split
      · exact finalize_pres _ (stepAudio_pres ctx now r _ (stepText_pres r s h))
      · exact stepAudio_pres ctx now r _ (stepText_pres r s h)

lemma runResponses_pres (ctx : Bool) (now : Nat) (rs : List Json) :
    ∀ s, OpenInv s → OpenInv (runResponses ctx now rs s).1 := by
  induction rs with
  | nil => intro s h; exact h
  | cons r rest ih =>
    intro s h
    simp only [runResponses]
    split
    · exact step_pres ctx now s r h
    · exact ih _ (step_pres ctx now s r h)

lemma transcript_pres (p : Json) (s : AggState) (h : OpenInv s) :
    OpenInv (handleTranscriptMessage p s) := by
  unfold handleTranscriptMessage
  split
  · exact h
  · split
    · exact h
    · dsimp only
      split
      · obtain ⟨h1, h2, h3⟩ := h
        obtain ⟨hnd, hbd⟩ := nodup_append_fresh s.chatMessages
          ⟨s.nextId, .user, jsToString _, none, none⟩ s.nextId h2 h3 rfl
        exact ⟨fun m hm => absurd hm (by simp), hnd, hbd⟩
      · split
        · exact update_pres _ _ (ensure_pres _ h)
        · exact h

lemma agentResponse_pres (ctx : Bool) (now : Nat) (p : Json) (s : AggState)
    (h : OpenInv s) : OpenInv (handleAgentResponse ctx now p s) := by
  unfold handleAgentResponse
  dsimp only
  split
  · exact h
  · split
    · exact runResponses_pres ctx now _ s h
    · split
      · exact finalize_pres _ (runResponses_pres ctx now _ s h)
      · exact runResponses_pres ctx now _ s h

lemma close_pres (s : AggState) (h : OpenInv s) :
    OpenInv (handleSocketClose s) := by
  unfold handleSocketClose clearScheduledAudio
  obtain ⟨-, h2, h3⟩ := h
  exact ⟨fun m hm => absurd hm (by simp), h2, h3⟩

/-- Message `m` survives in the conversation and is not the open
message: the shape in which a finalized message must persist. -/
def MsgKeep (m : Message) (s : AggState) : Prop :=
  m ∈ s.chatMessages ∧ ∀ om, s.incoming = some om → m.id ≠ om.id

lemma ensure_keep (s : AggState) (m : Message) (h : OpenInv s)
    (hk : MsgKeep m s) : MsgKeep m (ensureIncomingMessage s) := by
  obtain ⟨hmem, hne⟩ := hk
  cases hi : s.incoming with
  | some m0 => rw [ensure_some_eq s m0 hi]; exact ⟨hmem, hne⟩
  | none =>
    rw [ensure_none_eq s hi]
    refine ⟨List.mem_append_left _ hmem, ?_⟩
    intro om hom
    have hom' : om = freshModelMsg s := by simpa using hom.symm
    subst hom'
    have := h.2.2 m hmem
    show m.id ≠ s.nextId
    omega

lemma update_keep (u : MessageUpdates) (s : AggState) (m : Message)
    (h : OpenInv s) (hk : MsgKeep m s) :
    MsgKeep m (updateIncomingMessage u s) := by
  cases hi : s.incoming with
  | some m0 =>
    obtain ⟨hmem, hne⟩ := hk
    have hne0 : m.id ≠ m0.id := hne m0 hi
    rw [update_some_eq u s m0 hi]
    refine ⟨mem_map_replace _ _ _ hmem
      (by rw [applyUpdates_id]; exact hne0), ?_⟩
    intro om hom
    have hom' : om = applyUpdates m0 u := by simpa using hom.symm
    subst hom'
    rw [applyUpdates_id]
    exact hne0
  | none =>
    rw [update_none_eq u s hi]
    have hek := ensure_keep s m h hk
    have hei : (ensureIncomingMessage s).incoming =
        some (freshModelMsg s) := by
      rw [ensure_none_eq s hi]
    obtain ⟨hmem, hne⟩ := hek
    have hne0 : m.id ≠ (freshModelMsg s).id := hne _ hei
    rw [update_some_eq u _ _ hei]
    refine ⟨mem_map_replace _ _ _ hmem
      (by rw [applyUpdates_id]; exact hne0), ?_⟩
    intro om hom
    have hom' : om = applyUpdates (freshModelMsg s) u := by
      simpa using hom.symm
    subst hom'
    rw [applyUpdates_id]
    exact hne0

lemma finalize_keep (s : AggState) (m : Message) (hk : MsgKeep m s) :
    MsgKeep m (finalizeIncomingMessage s) := by
  cases hi : s.incoming with
  | none => rw [finalize_none_eq s hi]; exact hk
  | some m0 =>
    obtain ⟨hmem, hne⟩ := hk
    rw [finalize_some_eq s m0 hi]
    refine ⟨mem_map_replace _ _ _ hmem (hne m0 hi), ?_⟩
    intro om hom
    exact absurd hom (by simp)

lemma playAudio_keep (ctx : Bool) (now : Nat) (d : List Nat) (s : AggState)
    (m : Message) (hk : MsgKeep m s) :
    MsgKeep m (playAudio ctx now d s).1 := by
  obtain ⟨e1, e2, -⟩ := playAudio_proj ctx now d s
  unfold MsgKeep at hk ⊢
  rw [e1, e2]
  exact hk

lemma stepText_keep (r : Json) (s : AggState) (m : Message) (h : OpenInv s)
    (hk : MsgKeep m s) : MsgKeep m (stepText r s) := by
  unfold stepText
  split
  · split
    · split
      · exact update_keep _ _ _ (ensure_pres _ h) (ensure_keep _ _ h hk)
      · exact hk
    · exact hk
  · exact hk

lemma stepAudio_keep (ctx : Bool) (now : Nat) (r : Json) (s : AggState)
    (m : Message) (h : OpenInv s) (hk : MsgKeep m s) :
    MsgKeep m (stepAudio ctx now r s).1 := by
  unfold stepAudio
  split
  · exact playAudio_keep _ _ _ _ _
      (update_keep _ _ _ (ensure_pres _ h) (ensure_keep _ _ h hk))
  · exact hk

lemma step_keep (ctx : Bool) (now : Nat) (s : AggState) (r : Json)
    (m : Message) (h : OpenInv s) (hk : MsgKeep m s) :
    MsgKeep m (agentResponseStep ctx now s r).1 := by
  unfold agentResponseStep
  split
  · exact hk
  · dsimp only
    split
    · exact stepAudio_keep ctx now r _ m
        (stepText_pres r s h) (stepText_keep r s m h hk)
    · dsimp only
      split
      · exact finalize_keep _ _ (stepAudio_keep ctx now r _ m
          (stepText_pres r s h) (stepText_keep r s m h hk))
      · exact stepAudio_keep ctx now r _ m
          (stepText_pres r s h) (stepText_keep r s m h hk)

lemma runResponses_keep (ctx : Bool) (now : Nat) (rs : List Json) :
    ∀ s m, OpenInv s → MsgKeep m s →
      MsgKeep m (runResponses ctx now rs s).1 := by
  induction rs with
  | nil => intro s m _ hk; exact hk
  | cons r rest ih =>
    intro s m h hk
    simp only [runResponses]
    split
    · exact step_keep ctx now s r m h hk
    · exact ih _ m (step_pres ctx now s r h) (step_keep ctx now s r m h hk)

lemma transcript_keep (p : Json) (s : AggState) (m : Message)
    (h : OpenInv s) (hk : MsgKeep m s) :
    MsgKeep m (handleTranscriptMessage p s) := by
  unfold handleTranscriptMessage
  split
  · exact hk
  · split
    · exact hk
    · dsimp only
      split
      · refine ⟨List.mem_append_left _ hk.1, ?_⟩
        intro om hom
        exact absurd hom (by simp)
      · split
        · exact update_keep _ _ _ (ensure_pres _ h) (ensure_keep _ _ h hk)
        · exact hk

lemma agentResponse_keep (ctx : Bool) (now : Nat) (p : Json) (s : AggState)
    (m : Message) (h : OpenInv s) (hk : MsgKeep m s) :
    MsgKeep m (handleAgentResponse ctx now p s) := by
  unfold handleAgentResponse
  dsimp only
  split
  · exact hk
  · split
    · exact runResponses_keep ctx now _ s m h hk
    · split
      · exact finalize_keep _ _ (runResponses_keep ctx now _ s m h hk)
      · exact runResponses_keep ctx now _ s m h hk

/-- C10: the aggregator invariant — at most one model message open at a
time (by the single-`Option` representation), the open message (when it
exists) has role model and is the last element of the conversation, ids
are distinct and below the fresh-id counter — is preserved by every
event-handling operation: ensure/update/finalize, transcript handling,
agent-response handling and socket close.  Moreover the two
delta-handling entry points never touch any conversation message other
than the open one: every message that is not the open message survives
unchanged, so finalized messages are never reopened or mutated by later
deltas. -/
theorem c10_aggregator_invariant (s : AggState) (h : OpenInv s) :
    OpenInv (ensureIncomingMessage s) ∧
    (∀ u, OpenInv (updateIncomingMessage u s)) ∧
    OpenInv (finalizeIncomingMessage s) ∧
    (∀ p, OpenInv (handleTranscriptMessage p s)) ∧
    (∀ ctx now p, OpenInv (handleAgentResponse ctx now p s)) ∧
    OpenInv (handleSocketClose s) ∧
    (∀ p m, m ∈ s.chatMessages →
      (∀ om, s.incoming = some om → m.id ≠ om.id) →
      m ∈ (handleTranscriptMessage p s).chatMessages) ∧
    (∀ ctx now p m, m ∈ s.chatMessages →
      (∀ om, s.incoming = some om → m.id ≠ om.id) →
      m ∈ (handleAgentResponse ctx now p s).chatMessages) :=
  ⟨ensure_pres s h,
   fun u => update_pres u s h,
   finalize_pres s h,
   fun p => transcript_pres p s h,
   fun ctx now p => agentResponse_pres ctx now p s h,
   close_pres s h,
   fun p m hm hne => (transcript_keep p s m h ⟨hm, hne⟩).1,
   fun ctx now p m hm hne => (agentResponse_keep ctx now p s m h ⟨hm, hne⟩).1⟩

/-- Witness for C10 at the concrete state `c8state` (one finalized-free
conversation with an open model message). -/
theorem c10_aggregator_invariant_witness :
    OpenInv (ensureIncomingMessage c8state) ∧
    (∀ u, OpenInv (updateIncomingMessage u c8state)) ∧
    OpenInv (finalizeIncomingMessage c8state) ∧
    (∀ p, OpenInv (handleTranscriptMessage p c8state)) ∧
    (∀ ctx now p, OpenInv (handleAgentResponse ctx now p c8state)) ∧
    OpenInv (handleSocketClose c8state) ∧
    (∀ p m, m ∈ c8state.chatMessages →
      (∀ om, c8state.incoming = some om → m.id ≠ om.id) →
      m ∈ (handleTranscriptMessage p c8state).chatMessages) ∧
    (∀ ctx now p m, m ∈ c8state.chatMessages →
      (∀ om, c8state.incoming = some om → m.id ≠ om.id) →
      m ∈ (handleAgentResponse ctx now p c8state).chatMessages) :=
  c10_aggregator_invariant c8state
    ⟨fun m hm => by cases hm; exact ⟨rfl, rfl⟩, by decide, by decide⟩

end AgentRelay
